import Mathlib

/-!
Verification development for the Expenses-platform backend.

The Python sources are shallowly embedded:
* `datetime.date` becomes the `Date` structure below, with the proleptic
  Gregorian ordinal `Date.toOrd` (the value of Python's `date.toordinal`,
  with 0001-01-01 ↦ 1); date comparison and `timedelta` arithmetic are the
  corresponding operations on ordinals.
* Django querysets over the `Expense`, `Budget`, `Category` and token tables
  become explicit Lean lists, and `filter`/`aggregate` calls become
  `List.filter` / sums over the filtered list.
* `Decimal` amounts become exact rationals `ℚ`; `Decimal('0.00')` is `0`.
-/

/-- Gregorian leap-year test (as used by Python's `calendar`/`datetime`). -/
def isLeap (y : Nat) : Bool :=
  (y % 4 == 0 && y % 100 != 0) || y % 400 == 0

/-- Number of days of month `m` of year `y`; models `calendar.monthrange y m |>.2`. -/
def daysInMonth (y m : Nat) : Nat :=
  if m = 2 then (if isLeap y then 29 else 28)
  else if m = 4 ∨ m = 6 ∨ m = 9 ∨ m = 11 then 30
  else 31

/-- A calendar date, the embedding of Python's `datetime.date`. -/
structure Date where
  year : Nat
  month : Nat
  day : Nat
deriving DecidableEq, Repr

/-- Days in the months of year `y` strictly before month `m`. -/
def daysBeforeMonth (y : Nat) : Nat → Nat
  | 0 => 0
  | 1 => 0
  | m + 2 => daysBeforeMonth y (m + 1) + daysInMonth y (m + 1)

/-- Days in the years strictly before year `y` (Python's `_days_before_year`). -/
def daysBeforeYear (y : Nat) : Nat :=
  365 * (y - 1) + (y - 1) / 4 + (y - 1) / 400 - (y - 1) / 100

/-- Proleptic Gregorian ordinal of a date: the value of `date.toordinal()`.
Date comparison in Python coincides with comparison of ordinals. -/
def Date.toOrd (d : Date) : Nat :=
  daysBeforeYear d.year + daysBeforeMonth d.year d.month + d.day

/-- The dates representable by `datetime.date` (year ≥ 1, month and day in range). -/
def Date.valid (d : Date) : Prop :=
  1 ≤ d.year ∧ 1 ≤ d.month ∧ d.month ≤ 12 ∧ 1 ≤ d.day ∧ d.day ≤ daysInMonth d.year d.month

instance (d : Date) : Decidable d.valid := by
  unfold Date.valid; infer_instance

/-- `d + timedelta(days=1)` on the calendar representation. -/
def succDay (d : Date) : Date :=
  if d.day < daysInMonth d.year d.month then ⟨d.year, d.month, d.day + 1⟩
  else if d.month < 12 then ⟨d.year, d.month + 1, 1⟩
  else ⟨d.year + 1, 1, 1⟩

/-- `d + timedelta(days=n)`. -/
def addDays (d : Date) : Nat → Date
  | 0 => d
  | n + 1 => succDay (addDays d n)

/-- `d - timedelta(days=1)` on the calendar representation. -/
def predDay (d : Date) : Date :=
  if 1 < d.day then ⟨d.year, d.month, d.day - 1⟩
  else if 1 < d.month then ⟨d.year, d.month - 1, daysInMonth d.year (d.month - 1)⟩
  else ⟨d.year - 1, 12, 31⟩

/-- `d - timedelta(days=n)`. -/
def subDays (d : Date) : Nat → Date
  | 0 => d
  | n + 1 => predDay (subDays d n)

/-- Boolean date comparison `a <= b` (Python date order = ordinal order). -/
def dleB (a b : Date) : Bool := a.toOrd ≤ b.toOrd

/-- `min` of two dates, as Python's `min` under date order. -/
def dmin (a b : Date) : Date := if a.toOrd ≤ b.toOrd then a else b

/-- `max` of two dates, as Python's `max` under date order. -/
def dmax (a b : Date) : Date := if a.toOrd ≤ b.toOrd then b else a

/-- `d.weekday()`: Monday = 0 … Sunday = 6 (0001-01-01 was a Monday). -/
def weekday (d : Date) : Nat := (d.toOrd + 6) % 7

theorem daysInMonth_pos (y m : Nat) : 1 ≤ daysInMonth y m := by
  unfold daysInMonth
  split
  · split <;> omega
  · split <;> omega

theorem daysInMonth_le (y m : Nat) : daysInMonth y m ≤ 31 := by
  unfold daysInMonth
  split
  · split <;> omega
  · split <;> omega

theorem daysBeforeMonth_succ (y m : Nat) (h : 1 ≤ m) :
    daysBeforeMonth y (m + 1) = daysBeforeMonth y m + daysInMonth y m := by
  match m, h with
  | (k + 1), _ => rfl

theorem isLeap_iff (y : Nat) :
    isLeap y = true ↔ ((y % 4 = 0 ∧ ¬ y % 100 = 0) ∨ y % 400 = 0) := by
  simp [isLeap, Bool.or_eq_true, Bool.and_eq_true]

theorem daysBeforeMonth_13 (y : Nat) :
    daysBeforeMonth y 13 = 365 + (if isLeap y then 1 else 0) := by
  by_cases h : isLeap y = true <;>
    simp [daysBeforeMonth, daysInMonth, h]

theorem leapArith (y : Nat) (h : 1 ≤ y)
    (hc : (y % 4 = 0 ∧ ¬ y % 100 = 0) ∨ y % 400 = 0) :
    365 * (y + 1 - 1) + (y + 1 - 1) / 4 + (y + 1 - 1) / 400 - (y + 1 - 1) / 100 =
      365 * (y - 1) + (y - 1) / 4 + (y - 1) / 400 - (y - 1) / 100 + 365 + 1 := by
  omega

theorem nonLeapArith (y : Nat) (h : 1 ≤ y)
    (hc : ¬ ((y % 4 = 0 ∧ ¬ y % 100 = 0) ∨ y % 400 = 0)) :
    365 * (y + 1 - 1) + (y + 1 - 1) / 4 + (y + 1 - 1) / 400 - (y + 1 - 1) / 100 =
      365 * (y - 1) + (y - 1) / 4 + (y - 1) / 400 - (y - 1) / 100 + 365 + 0 := by
  omega

theorem daysBeforeYear_succ (y : Nat) (h : 1 ≤ y) :
    daysBeforeYear (y + 1) = daysBeforeYear y + 365 + (if isLeap y then 1 else 0) := by
  unfold daysBeforeYear
  by_cases hl : isLeap y = true
  · rw [if_pos hl]
    exact leapArith y h ((isLeap_iff y).mp hl)
  · rw [if_neg hl]
    exact nonLeapArith y h (fun c => hl ((isLeap_iff y).mpr c))

theorem daysInMonth_12 (y : Nat) : daysInMonth y 12 = 31 := by
  norm_num [daysInMonth]

theorem daysInMonth_1 (y : Nat) : daysInMonth y 1 = 31 := by
  norm_num [daysInMonth]

theorem daysBeforeMonth_1 (y : Nat) : daysBeforeMonth y 1 = 0 := rfl

theorem daysBeforeYear_plus13 (y : Nat) (h : 1 ≤ y) :
    daysBeforeYear (y + 1) = daysBeforeYear y + daysBeforeMonth y 13 := by
  rw [daysBeforeYear_succ y h, daysBeforeMonth_13]
  omega


theorem toOrd_succDay (d : Date) (h : d.valid) : (succDay d).toOrd = d.toOrd + 1 := by
  obtain ⟨hy, hm1, hm2, hd1, hd2⟩ := h
  unfold succDay
  by_cases h1 : d.day < daysInMonth d.year d.month
  · rw [if_pos h1]
    show daysBeforeYear d.year + daysBeforeMonth d.year d.month + (d.day + 1)
      = daysBeforeYear d.year + daysBeforeMonth d.year d.month + d.day + 1
    omega
  · rw [if_neg h1]
    by_cases h2 : d.month < 12
    · rw [if_pos h2]
      show daysBeforeYear d.year + daysBeforeMonth d.year (d.month + 1) + 1
        = daysBeforeYear d.year + daysBeforeMonth d.year d.month + d.day + 1
      rw [daysBeforeMonth_succ d.year d.month hm1]
      omega
    · rw [if_neg h2]
      have hm12 : d.month = 12 := by omega
      rw [hm12, daysInMonth_12] at hd2 h1
      have h12 : daysBeforeMonth d.year 13
          = daysBeforeMonth d.year 12 + daysInMonth d.year 12 :=
        daysBeforeMonth_succ d.year 12 (by norm_num)
      rw [daysInMonth_12] at h12
      show daysBeforeYear (d.year + 1) + daysBeforeMonth (d.year + 1) 1 + 1
        = daysBeforeYear d.year + daysBeforeMonth d.year d.month + d.day + 1
      rw [hm12, daysBeforeMonth_1, daysBeforeYear_plus13 d.year hy]
      omega

theorem succDay_valid (d : Date) (h : d.valid) : (succDay d).valid := by
  obtain ⟨hy, hm1, hm2, hd1, hd2⟩ := h
  unfold succDay
  by_cases h1 : d.day < daysInMonth d.year d.month
  · rw [if_pos h1]
    refine ⟨hy, hm1, hm2, ?_, ?_⟩
    · show 1 ≤ d.day + 1
      omega
    · show d.day + 1 ≤ daysInMonth d.year d.month
      omega
  · rw [if_neg h1]
    by_cases h2 : d.month < 12
    · rw [if_pos h2]
      refine ⟨hy, ?_, ?_, le_refl 1, ?_⟩
      · show 1 ≤ d.month + 1
        omega
      · show d.month + 1 ≤ 12
        omega
      · show 1 ≤ daysInMonth d.year (d.month + 1)
        exact daysInMonth_pos _ _
    · rw [if_neg h2]
      refine ⟨?_, le_refl 1, by norm_num, le_refl 1, ?_⟩
      · show 1 ≤ d.year + 1
        omega
      · show 1 ≤ daysInMonth (d.year + 1) 1
        rw [daysInMonth_1]
        norm_num

theorem toOrd_addDays (d : Date) (h : d.valid) (n : Nat) :
    (addDays d n).toOrd = d.toOrd + n ∧ (addDays d n).valid := by
  induction n with
  | zero => exact ⟨rfl, h⟩
  | succ k ih =>
    show (succDay (addDays d k)).toOrd = _ ∧ (succDay (addDays d k)).valid
    rw [toOrd_succDay _ ih.2, ih.1]
    exact ⟨by omega, succDay_valid _ ih.2⟩

theorem toOrd_pos (d : Date) (h : d.valid) : 1 ≤ d.toOrd := by
  obtain ⟨hy, hm1, hm2, hd1, hd2⟩ := h
  unfold Date.toOrd
  omega

theorem toOrd_predDay (d : Date) (h : d.valid) (h2 : 2 ≤ d.toOrd) :
    (predDay d).toOrd = d.toOrd - 1 ∧ (predDay d).valid := by
  obtain ⟨hy, hm1, hm2, hd1, hd2⟩ := h
  unfold predDay
  by_cases hb1 : 1 < d.day
  · rw [if_pos hb1]
    constructor
    · show daysBeforeYear d.year + daysBeforeMonth d.year d.month + (d.day - 1)
        = daysBeforeYear d.year + daysBeforeMonth d.year d.month + d.day - 1
      omega
    · refine ⟨hy, hm1, hm2, ?_, ?_⟩
      · show 1 ≤ d.day - 1
        omega
      · show d.day - 1 ≤ daysInMonth d.year d.month
        omega
  · rw [if_neg hb1]
    have hd : d.day = 1 := by omega
    by_cases hb2 : 1 < d.month
    · rw [if_pos hb2]
      obtain ⟨k, hk⟩ : ∃ k, d.month = k + 2 := ⟨d.month - 2, by omega⟩
      have hstep : daysBeforeMonth d.year (k + 2)
          = daysBeforeMonth d.year (k + 1) + daysInMonth d.year (k + 1) := rfl
      have hm1' : d.month - 1 = k + 1 := by omega
      constructor
      · show daysBeforeYear d.year + daysBeforeMonth d.year (d.month - 1)
            + daysInMonth d.year (d.month - 1)
          = daysBeforeYear d.year + daysBeforeMonth d.year d.month + d.day - 1
        rw [hm1', hd, hk, hstep]
        omega
      · refine ⟨hy, ?_, ?_, ?_, le_refl _⟩
        · show 1 ≤ d.month - 1
          omega
        · show d.month - 1 ≤ 12
          omega
        · show 1 ≤ daysInMonth d.year (d.month - 1)
          exact daysInMonth_pos _ _
    · rw [if_neg hb2]
      have hm : d.month = 1 := by omega
      have hy2 : 2 ≤ d.year := by
        by_contra hcon
        have hy1 : d.year = 1 := by omega
        rw [Date.toOrd, hy1, hm, hd] at h2
        simp [daysBeforeYear, daysBeforeMonth] at h2
      obtain ⟨z, hz⟩ : ∃ z, d.year = z + 2 := ⟨d.year - 2, by omega⟩
      have hstep : daysBeforeYear (z + 2) = daysBeforeYear (z + 1) + daysBeforeMonth (z + 1) 13 :=
        daysBeforeYear_plus13 (z + 1) (by omega)
      have h12 : daysBeforeMonth (z + 1) 13
          = daysBeforeMonth (z + 1) 12 + daysInMonth (z + 1) 12 :=
        daysBeforeMonth_succ (z + 1) 12 (by norm_num)
      rw [daysInMonth_12] at h12
      have hz1 : d.year - 1 = z + 1 := by omega
      constructor
      · show daysBeforeYear (d.year - 1) + daysBeforeMonth (d.year - 1) 12 + 31
          = daysBeforeYear d.year + daysBeforeMonth d.year d.month + d.day - 1
        rw [hz1, hm, hd, hz, hstep, h12, daysBeforeMonth_1]
        omega
      · refine ⟨?_, by norm_num, by norm_num, by norm_num, ?_⟩
        · show 1 ≤ d.year - 1
          omega
        · show 31 ≤ daysInMonth (d.year - 1) 12
          rw [daysInMonth_12]

theorem toOrd_subDays (d : Date) (h : d.valid) (n : Nat) (hn : n < d.toOrd) :
    (subDays d n).toOrd = d.toOrd - n ∧ (subDays d n).valid := by
  induction n with
  | zero => exact ⟨by simp [subDays], h⟩
  | succ k ih =>
    have hk : k < d.toOrd := by omega
    have ih' := ih hk
    have h2 : 2 ≤ (subDays d k).toOrd := by omega
    show (predDay (subDays d k)).toOrd = _ ∧ (predDay (subDays d k)).valid
    have hp := toOrd_predDay (subDays d k) ih'.2 h2
    rw [hp.1, ih'.1]
    exact ⟨by omega, hp.2⟩

theorem toOrd_dmin (a b : Date) : (dmin a b).toOrd = min a.toOrd b.toOrd := by
  unfold dmin
  split <;> omega

theorem toOrd_dmax (a b : Date) : (dmax a b).toOrd = max a.toOrd b.toOrd := by
  unfold dmax
  split <;> omega

theorem dmin_valid (a b : Date) (ha : a.valid) (hb : b.valid) : (dmin a b).valid := by
  unfold dmin
  split
  · exact ha
  · exact hb

theorem dmax_valid (a b : Date) (ha : a.valid) (hb : b.valid) : (dmax a b).valid := by
  unfold dmax
  split
  · exact hb
  · exact ha

/-! ## Data model

Rows of the `Expense`, `Category` and `Budget` tables (`expenses/models.py`),
with users and categories referenced by numeric ids and `Decimal` amounts as
exact rationals. -/

structure Expense where
  userId : Nat
  amount : ℚ
  currency : String
  date : Date
  categoryId : Option Nat
deriving DecidableEq, Repr

inductive BudgetPeriod
  | daily
  | weekly
  | monthly
  | quarterly
  | yearly
deriving DecidableEq, Repr

structure Budget where
  userId : Nat
  amount : ℚ
  currency : String
  period : BudgetPeriod
  start_date : Date
  categoryId : Option Nat
deriving DecidableEq, Repr

structure Category where
  id : Nat
  userId : Nat
  name : String
  color : String
deriving DecidableEq, Repr

/-- `queryset.aggregate(Sum('amount'))` over a filtered expense list. -/
def sumAmounts (l : List Expense) : ℚ := (l.map (fun e => e.amount)).sum

/-- `Budget.get_spent_amount` (`expenses/models.py` lines 132-185): the end
date of the budget period is computed from `start_date` by the `if`/`elif`
chain, then the user's expenses are filtered by date range, currency and
(when set) category, and their amounts are summed; an empty sum is `0`. -/
def get_spent_amount (b : Budget) (expenses : List Expense) : ℚ :=
  let start_date := b.start_date
  let end_date :=
    match b.period with
    | .daily => start_date
    | .weekly => addDays start_date 6
    | .monthly =>
        ⟨start_date.year, start_date.month, daysInMonth start_date.year start_date.month⟩
    | .quarterly =>
        let qem := ((start_date.month - 1) / 3) * 3 + 3
        let qem2 := if qem > 12 then 12 else qem
        ⟨start_date.year, qem2, daysInMonth start_date.year qem2⟩
    | .yearly => ⟨start_date.year, 12, 31⟩
  let es :=
    match b.categoryId with
    | some c =>
        expenses.filter (fun e =>
          e.userId == b.userId && e.categoryId == some c
            && dleB start_date e.date && dleB e.date end_date
            && e.currency == b.currency)
    | none =>
        expenses.filter (fun e =>
          e.userId == b.userId
            && dleB start_date e.date && dleB e.date end_date
            && e.currency == b.currency)
  sumAmounts es

/-- The end date of a budget period as described by the specification:
daily ↦ the start date itself, weekly ↦ start plus 6 days, monthly ↦ last
day of the start's calendar month, quarterly ↦ last day of the calendar
quarter containing the start, yearly ↦ December 31 of the start's year. -/
def specBudgetEnd (period : BudgetPeriod) (s : Date) : Date :=
  match period with
  | .daily => s
  | .weekly => addDays s 6
  | .monthly => ⟨s.year, s.month, daysInMonth s.year s.month⟩
  | .quarterly =>
      let q := (s.month - 1) / 3
      ⟨s.year, 3 * q + 3, daysInMonth s.year (3 * q + 3)⟩
  | .yearly => ⟨s.year, 12, 31⟩

/-- The specification's matching predicate for `get_spent_amount`: an expense
of the budget's user, in the budget's currency, in the budget's category when
one is set, dated within `[start_date, end_date]`. -/
def specBudgetMatches (b : Budget) (e : Expense) : Bool :=
  e.userId == b.userId && e.currency == b.currency
    && (match b.categoryId with
        | some c => e.categoryId == some c
        | none => true)
    && dleB b.start_date e.date && dleB e.date (specBudgetEnd b.period b.start_date)

theorem bool_shuffle5 (a b c d e : Bool) :
    (a && b && c && d && e) = (a && e && b && c && d) := by
  cases a <;> cases b <;> cases c <;> cases d <;> cases e <;> rfl

theorem bool_shuffle4 (a c d e : Bool) :
    (a && c && d && e) = (a && e && true && c && d) := by
  cases a <;> cases c <;> cases d <;> cases e <;> rfl

/-- C1: for every budget whose start date is a representable calendar date,
`Budget.get_spent_amount` returns the sum of exactly those expenses of the
budget's user that have the budget's currency (and the budget's category,
when one is set) and whose date lies in `[start_date, end_date]`, where
`end_date` is the start date for a daily period, the start date plus 6 days
for weekly, the last day of the start's calendar month for monthly, the last
day of the calendar quarter containing the start for quarterly, and
December 31 of the start's year for yearly; when no expense matches, the
result is `0`. -/
theorem C1_get_spent_amount (b : Budget) (expenses : List Expense)
    (h : b.start_date.valid) :
    get_spent_amount b expenses
        = sumAmounts (expenses.filter (specBudgetMatches b))
      ∧ (expenses.filter (specBudgetMatches b) = []
          → get_spent_amount b expenses = 0) := by
  obtain ⟨u, amt, cur, per, sd, cat⟩ := b
  replace h : sd.valid := h
  obtain ⟨hy, hm1, hm2, hd1, hd2⟩ := h
  have hq : (if ((sd.month - 1) / 3) * 3 + 3 > 12 then 12
      else ((sd.month - 1) / 3) * 3 + 3) = 3 * ((sd.month - 1) / 3) + 3 := by
    rw [if_neg (by omega)]
    omega
  have hmain : get_spent_amount ⟨u, amt, cur, per, sd, cat⟩ expenses
      = sumAmounts (expenses.filter (specBudgetMatches ⟨u, amt, cur, per, sd, cat⟩)) := by
    cases per <;> cases cat <;>
      (simp only [get_spent_amount, specBudgetMatches, specBudgetEnd, hq]
       refine congrArg sumAmounts (List.filter_congr ?_)
       intro e he
       first
        | exact bool_shuffle5 _ _ _ _ _
        | exact bool_shuffle4 _ _ _ _)
  refine ⟨hmain, ?_⟩
  intro hE
  rw [hmain, hE]
  rfl

def exBudget : Budget := ⟨1, 50, "USD", .monthly, ⟨2025, 3, 10⟩, none⟩

def exExpenses : List Expense := [⟨1, 20, "USD", ⟨2025, 3, 15⟩, none⟩]

theorem C1_get_spent_amount_witness :
    (exBudget.start_date.valid)
      ∧ (get_spent_amount exBudget exExpenses
            = sumAmounts (exExpenses.filter (specBudgetMatches exBudget))
          ∧ (exExpenses.filter (specBudgetMatches exBudget) = []
              → get_spent_amount exBudget exExpenses = 0)) :=
  ⟨by decide, C1_get_spent_amount exBudget exExpenses (by decide)⟩

/-! ## Time series (`get_expense_time_series`, `expenses/utils.py` 196-300) -/

structure SeriesEntry where
  date : Date
  amount : ℚ
  count : Nat
deriving DecidableEq, Repr

inductive GroupBy
  | auto
  | day
  | week
  | month
  | year
deriving DecidableEq, Repr

/-- The base queryset of `get_expense_time_series`: the user's expenses dated
within `[start_date, end_date]` in the given currency, further filtered by
category when one is given. -/
def seriesBase (user : Nat) (expenses : List Expense) (s e : Date)
    (currency : String) (categoryId : Option Nat) : List Expense :=
  let q := expenses.filter (fun x =>
    x.userId == user && dleB s x.date && dleB x.date e && x.currency == currency)
  match categoryId with
  | some c => q.filter (fun x => x.categoryId == some c)
  | none => q

/-- The `group_by == 'day'` loop: one entry per day while `current <= end`. -/
def daySeriesAux (q : List Expense) (e : Date) : Nat → Date → List SeriesEntry
  | 0, _ => []
  | fuel + 1, c =>
    if c.toOrd ≤ e.toOrd then
      let de := q.filter (fun x => x.date == c)
      ⟨c, sumAmounts de, de.length⟩ :: daySeriesAux q e fuel (succDay c)
    else []

/-- The `group_by == 'week'` loop: buckets `[current, min(current+6, end)]`,
next start one day after the bucket end. -/
def weekSeriesAux (q : List Expense) (e : Date) : Nat → Date → List SeriesEntry
  | 0, _ => []
  | fuel + 1, c =>
    if c.toOrd ≤ e.toOrd then
      let wkEnd := dmin (addDays c 6) e
      let we := q.filter (fun x => dleB c x.date && dleB x.date wkEnd)
      ⟨c, sumAmounts we, we.length⟩ :: weekSeriesAux q e fuel (succDay wkEnd)
    else []

/-- `current_date.replace(...)` step of the month loop: first day of the next
month keeps the `day` field (always 1 in the loop). -/
def nextMonthDate (c : Date) : Date :=
  if c.month == 12 then ⟨c.year + 1, 1, c.day⟩ else ⟨c.year, c.month + 1, c.day⟩

/-- The `group_by == 'month'` loop: buckets
`[current, min(next_month - 1 day, end)]`, stepping to the next month. -/
def monthSeriesAux (q : List Expense) (e : Date) : Nat → Date → List SeriesEntry
  | 0, _ => []
  | fuel + 1, c =>
    if c.toOrd ≤ e.toOrd then
      let nm := nextMonthDate c
      let mEnd := dmin (predDay nm) e
      let mx := q.filter (fun x => dleB c x.date && dleB x.date mEnd)
      ⟨c, sumAmounts mx, mx.length⟩ :: monthSeriesAux q e fuel nm
    else []

/-- The `group_by == 'year'` loop: buckets
`[max(Jan 1, start), min(Dec 31, end)]` per year. -/
def yearSeriesAux (q : List Expense) (s e : Date) : Nat → Nat → List SeriesEntry
  | 0, _ => []
  | fuel + 1, y =>
    if y ≤ e.year then
      let ys := dmax ⟨y, 1, 1⟩ s
      let ye := dmin ⟨y, 12, 31⟩ e
      let yx := q.filter (fun x => dleB ys x.date && dleB x.date ye)
      ⟨ys, sumAmounts yx, yx.length⟩ :: yearSeriesAux q s e fuel (y + 1)
    else []

/-- `get_expense_time_series` (`expenses/utils.py` 196-300): filters the
expenses, resolves `group_by='auto'` from the day span, and produces the
per-bucket time series; an unrecognized effective group (only `auto` itself,
which is always resolved) yields the empty list. -/
def get_expense_time_series (user : Nat) (expenses : List Expense) (s e : Date)
    (group_by : GroupBy) (currency : String) (categoryId : Option Nat) :
    List SeriesEntry :=
  let q := seriesBase user expenses s e currency categoryId
  let deltaDays := e.toOrd - s.toOrd
  let g :=
    match group_by with
    | .auto =>
        if deltaDays ≤ 31 then GroupBy.day
        else if deltaDays ≤ 90 then GroupBy.week
        else if deltaDays ≤ 365 then GroupBy.month
        else GroupBy.year
    | g => g
  match g with
  | .day => daySeriesAux q e (e.toOrd + 1 - s.toOrd) s
  | .week => weekSeriesAux q e (e.toOrd + 1 - s.toOrd) s
  | .month =>
      monthSeriesAux q e (e.toOrd + 1 - (Date.toOrd ⟨s.year, s.month, 1⟩))
        ⟨s.year, s.month, 1⟩
  | .year => yearSeriesAux q s e (e.year + 1 - s.year) s.year
  | .auto => []

theorem daysBeforeMonth_mono (y : Nat) (m1 m2 : Nat) (h1 : 1 ≤ m1) (h12 : m1 ≤ m2) :
    daysBeforeMonth y m1 ≤ daysBeforeMonth y m2 := by
  induction m2 with
  | zero => omega
  | succ k ih =>
    rcases Nat.lt_or_ge m1 (k + 1) with hlt | hge
    · have hk : 1 ≤ k := by omega
      have hstep := daysBeforeMonth_succ y k hk
      have := ih (by omega)
      omega
    · have hm : m1 = k + 1 := by omega
      rw [hm]

theorem daysBeforeYear_mono (y1 y2 : Nat) (h : y1 ≤ y2) :
    daysBeforeYear y1 ≤ daysBeforeYear y2 := by
  induction y2 with
  | zero =>
    have hz : y1 = 0 := by omega
    subst hz
    exact le_refl _
  | succ k ih =>
    rcases Nat.lt_or_ge y1 (k + 1) with hlt | hge
    · rcases Nat.eq_zero_or_pos k with hk0 | hk1
      · have : y1 = 0 := by omega
        subst this
        subst hk0
        simp [daysBeforeYear]
      · have hstep := daysBeforeYear_succ k hk1
        have := ih (by omega)
        by_cases hL : isLeap k = true <;> simp [hL] at hstep <;> omega
    · have hm : y1 = k + 1 := by omega
      rw [hm]

/-- For a valid date, the ordinal lies within the date's year:
`daysBeforeYear y < toOrd d ≤ daysBeforeYear (y+1)`. -/
theorem toOrd_year_bounds (d : Date) (h : d.valid) :
    daysBeforeYear d.year + 1 ≤ d.toOrd ∧ d.toOrd ≤ daysBeforeYear (d.year + 1) := by
  obtain ⟨hy, hm1, hm2, hd1, hd2⟩ := h
  constructor
  · unfold Date.toOrd
    omega
  · have hstep := daysBeforeMonth_succ d.year d.month hm1
    have hmono := daysBeforeMonth_mono d.year (d.month + 1) 13 (by omega) (by omega)
    have h13 := daysBeforeYear_plus13 d.year hy
    unfold Date.toOrd
    omega

theorem toOrd_lt_of_lex (a b : Date) (ha : a.valid) (hb : b.valid)
    (hlex : a.year < b.year
      ∨ (a.year = b.year ∧ a.month < b.month)
      ∨ (a.year = b.year ∧ a.month = b.month ∧ a.day < b.day)) :
    a.toOrd < b.toOrd := by
  have hba := toOrd_year_bounds a ha
  have hbb := toOrd_year_bounds b hb
  obtain ⟨hay, ham1, ham2, had1, had2⟩ := ha
  obtain ⟨hby, hbm1, hbm2, hbd1, hbd2⟩ := hb
  rcases hlex with hy | ⟨hy, hm⟩ | ⟨hy, hm, hd⟩
  · have := daysBeforeYear_mono (a.year + 1) b.year (by omega)
    omega
  · have hstep := daysBeforeMonth_succ a.year a.month ham1
    have hmono := daysBeforeMonth_mono a.year (a.month + 1) b.month (by omega) (by omega)
    rw [hy] at hstep hmono had2
    unfold Date.toOrd
    rw [hy]
    omega
  · unfold Date.toOrd
    rw [hy, hm]
    omega

theorem toOrd_inj (a b : Date) (ha : a.valid) (hb : b.valid)
    (h : a.toOrd = b.toOrd) : a = b := by
  by_contra hne
  rcases Nat.lt_trichotomy a.year b.year with hy | hy | hy
  · exact absurd h (Nat.ne_of_lt (toOrd_lt_of_lex a b ha hb (Or.inl hy)))
  · rcases Nat.lt_trichotomy a.month b.month with hm | hm | hm
    · exact absurd h (Nat.ne_of_lt (toOrd_lt_of_lex a b ha hb (Or.inr (Or.inl ⟨hy, hm⟩))))
    · rcases Nat.lt_trichotomy a.day b.day with hd | hd | hd
      · exact absurd h
          (Nat.ne_of_lt (toOrd_lt_of_lex a b ha hb (Or.inr (Or.inr ⟨hy, hm, hd⟩))))
      · exact hne (by cases a; cases b; simp_all)
      · exact absurd h.symm
          (Nat.ne_of_lt (toOrd_lt_of_lex b a hb ha (Or.inr (Or.inr ⟨hy.symm, hm.symm, hd⟩))))
    · exact absurd h.symm
        (Nat.ne_of_lt (toOrd_lt_of_lex b a hb ha (Or.inr (Or.inl ⟨hy.symm, hm⟩))))
  · exact absurd h.symm (Nat.ne_of_lt (toOrd_lt_of_lex b a hb ha (Or.inl hy)))

theorem addDays_succDay (c : Date) (i : Nat) :
    addDays (succDay c) i = succDay (addDays c i) := by
  induction i with
  | zero => rfl
  | succ k ih =>
    show succDay (addDays (succDay c) k) = _
    rw [ih]
    rfl

theorem daySeriesAux_map (q : List Expense) (e : Date) :
    ∀ fuel c, c.valid → e.toOrd + 1 - c.toOrd ≤ fuel →
      daySeriesAux q e fuel c
        = (List.range (e.toOrd + 1 - c.toOrd)).map (fun i =>
            ⟨addDays c i,
             sumAmounts (q.filter (fun x => x.date == addDays c i)),
             (q.filter (fun x => x.date == addDays c i)).length⟩) := by
  intro fuel
  induction fuel with
  | zero =>
    intro c hc hf
    have h0 : e.toOrd + 1 - c.toOrd = 0 := by omega
    rw [h0]
    rfl
  | succ k ih =>
    intro c hc hf
    by_cases hce : c.toOrd ≤ e.toOrd
    · have hs := toOrd_succDay c hc
      have hyp := ih (succDay c) (succDay_valid c hc) (by omega)
      have hn : e.toOrd + 1 - c.toOrd = (e.toOrd + 1 - (succDay c).toOrd) + 1 := by omega
      have hstep : daySeriesAux q e (k + 1) c
          = ⟨c, sumAmounts (q.filter (fun x => x.date == c)),
              (q.filter (fun x => x.date == c)).length⟩
            :: daySeriesAux q e k (succDay c) := by
        simp [daySeriesAux, hce]
      rw [hstep, hn, List.range_succ_eq_map, List.map_cons, List.map_map, hyp]
      congr 1
      apply List.map_congr_left
      intro i hi
      simp only [Function.comp]
      simp [addDays_succDay, addDays]
    · have h0 : e.toOrd + 1 - c.toOrd = 0 := by omega
      rw [h0]
      simp [daySeriesAux, hce]

/-- C2: with `group_by='auto'`, `get_expense_time_series` groups by day when
the span is at most 31 days, by week when at most 90, by month when at most
365, and by year otherwise; and with `group_by='day'` it returns one entry
per calendar day from start through end inclusive whose amount is the sum of
the matching expenses dated that day, `0` for days with no match. -/
theorem C2_time_series_auto_day (user : Nat) (xs : List Expense) (s e : Date)
    (cur : String) (cat : Option Nat) (hs : s.valid) (he : e.valid)
    (hse : s.toOrd ≤ e.toOrd) :
    (e.toOrd - s.toOrd ≤ 31 →
      get_expense_time_series user xs s e .auto cur cat
        = get_expense_time_series user xs s e .day cur cat)
    ∧ (31 < e.toOrd - s.toOrd → e.toOrd - s.toOrd ≤ 90 →
      get_expense_time_series user xs s e .auto cur cat
        = get_expense_time_series user xs s e .week cur cat)
    ∧ (90 < e.toOrd - s.toOrd → e.toOrd - s.toOrd ≤ 365 →
      get_expense_time_series user xs s e .auto cur cat
        = get_expense_time_series user xs s e .month cur cat)
    ∧ (365 < e.toOrd - s.toOrd →
      get_expense_time_series user xs s e .auto cur cat
        = get_expense_time_series user xs s e .year cur cat)
    ∧ get_expense_time_series user xs s e .day cur cat
        = (List.range (e.toOrd - s.toOrd + 1)).map (fun i =>
            ⟨addDays s i,
             sumAmounts ((seriesBase user xs s e cur cat).filter
               (fun x => x.date == addDays s i)),
             ((seriesBase user xs s e cur cat).filter
               (fun x => x.date == addDays s i)).length⟩)
    ∧ ∀ en ∈ get_expense_time_series user xs s e .day cur cat,
        (seriesBase user xs s e cur cat).filter (fun x => x.date == en.date) = []
          → en.amount = 0 := by
  have hday : get_expense_time_series user xs s e .day cur cat
      = (List.range (e.toOrd - s.toOrd + 1)).map (fun i =>
          ⟨addDays s i,
           sumAmounts ((seriesBase user xs s e cur cat).filter
             (fun x => x.date == addDays s i)),
           ((seriesBase user xs s e cur cat).filter
             (fun x => x.date == addDays s i)).length⟩) := by
    have hn : e.toOrd + 1 - s.toOrd = e.toOrd - s.toOrd + 1 := by omega
    show daySeriesAux (seriesBase user xs s e cur cat) e (e.toOrd + 1 - s.toOrd) s = _
    rw [daySeriesAux_map (seriesBase user xs s e cur cat) e (e.toOrd + 1 - s.toOrd) s hs
      (le_refl _), hn]
  refine ⟨?_, ?_, ?_, ?_, hday, ?_⟩
  · intro h31
    show (match (if e.toOrd - s.toOrd ≤ 31 then GroupBy.day
        else if e.toOrd - s.toOrd ≤ 90 then GroupBy.week
        else if e.toOrd - s.toOrd ≤ 365 then GroupBy.month
        else GroupBy.year) with
      | GroupBy.day => _ | GroupBy.week => _ | GroupBy.month => _
      | GroupBy.year => _ | GroupBy.auto => _) = _
    rw [if_pos h31]
    rfl
  · intro h31 h90
    show (match (if e.toOrd - s.toOrd ≤ 31 then GroupBy.day
        else if e.toOrd - s.toOrd ≤ 90 then GroupBy.week
        else if e.toOrd - s.toOrd ≤ 365 then GroupBy.month
        else GroupBy.year) with
      | GroupBy.day => _ | GroupBy.week => _ | GroupBy.month => _
      | GroupBy.year => _ | GroupBy.auto => _) = _
    rw [if_neg (by omega), if_pos h90]
    rfl
  · intro h90 h365
    show (match (if e.toOrd - s.toOrd ≤ 31 then GroupBy.day
        else if e.toOrd - s.toOrd ≤ 90 then GroupBy.week
        else if e.toOrd - s.toOrd ≤ 365 then GroupBy.month
        else GroupBy.year) with
      | GroupBy.day => _ | GroupBy.week => _ | GroupBy.month => _
      | GroupBy.year => _ | GroupBy.auto => _) = _
    rw [if_neg (by omega), if_neg (by omega), if_pos h365]
    rfl
  · intro h365
    show (match (if e.toOrd - s.toOrd ≤ 31 then GroupBy.day
        else if e.toOrd - s.toOrd ≤ 90 then GroupBy.week
        else if e.toOrd - s.toOrd ≤ 365 then GroupBy.month
        else GroupBy.year) with
      | GroupBy.day => _ | GroupBy.week => _ | GroupBy.month => _
      | GroupBy.year => _ | GroupBy.auto => _) = _
    rw [if_neg (by omega), if_neg (by omega), if_neg (by omega)]
    rfl
  · intro en hen hnil
    rw [hday] at hen
    obtain ⟨i, hi, hfi⟩ := List.mem_map.mp hen
    rw [← hfi] at hnil ⊢
    simp only at hnil ⊢
    rw [hnil]
    rfl

theorem C2_time_series_auto_day_witness :
    (⟨2025, 1, 1⟩ : Date).valid ∧ (⟨2025, 1, 3⟩ : Date).valid
      ∧ (⟨2025, 1, 1⟩ : Date).toOrd ≤ (⟨2025, 1, 3⟩ : Date).toOrd
      ∧ ((⟨2025, 1, 3⟩ : Date).toOrd - (⟨2025, 1, 1⟩ : Date).toOrd ≤ 31 →
          get_expense_time_series 1 exExpenses ⟨2025, 1, 1⟩ ⟨2025, 1, 3⟩ .auto "USD" none
            = get_expense_time_series 1 exExpenses ⟨2025, 1, 1⟩ ⟨2025, 1, 3⟩ .day "USD" none) :=
  ⟨by decide, by decide, by decide,
    (C2_time_series_auto_day 1 exExpenses ⟨2025, 1, 1⟩ ⟨2025, 1, 3⟩ "USD" none
      (by decide) (by decide) (by decide)).1⟩

/-! ## Bucket ranges of the time-series loops (for C3) -/

/-- The date ranges of the `'day'` buckets. -/
def dayRangesAux (e : Date) : Nat → Date → List (Date × Date)
  | 0, _ => []
  | fuel + 1, c =>
    if c.toOrd ≤ e.toOrd then (c, c) :: dayRangesAux e fuel (succDay c) else []

/-- The date ranges of the `'week'` buckets. -/
def weekRangesAux (e : Date) : Nat → Date → List (Date × Date)
  | 0, _ => []
  | fuel + 1, c =>
    if c.toOrd ≤ e.toOrd then
      (c, dmin (addDays c 6) e) :: weekRangesAux e fuel (succDay (dmin (addDays c 6) e))
    else []

/-- The date ranges of the `'month'` buckets. -/
def monthRangesAux (e : Date) : Nat → Date → List (Date × Date)
  | 0, _ => []
  | fuel + 1, c =>
    if c.toOrd ≤ e.toOrd then
      (c, dmin (predDay (nextMonthDate c)) e) :: monthRangesAux e fuel (nextMonthDate c)
    else []

/-- The date ranges of the `'year'` buckets. -/
def yearRangesAux (s e : Date) : Nat → Nat → List (Date × Date)
  | 0, _ => []
  | fuel + 1, y =>
    if y ≤ e.year then
      (dmax ⟨y, 1, 1⟩ s, dmin ⟨y, 12, 31⟩ e) :: yearRangesAux s e fuel (y + 1)
    else []

/-- The list of date ranges of the buckets produced by
`get_expense_time_series` for a non-`auto` grouping. -/
def bucketRanges (g : GroupBy) (s e : Date) : List (Date × Date) :=
  match g with
  | .day => dayRangesAux e (e.toOrd + 1 - s.toOrd) s
  | .week => weekRangesAux e (e.toOrd + 1 - s.toOrd) s
  | .month =>
      monthRangesAux e (e.toOrd + 1 - (Date.toOrd ⟨s.year, s.month, 1⟩))
        ⟨s.year, s.month, 1⟩
  | .year => yearRangesAux s e (e.year + 1 - s.year) s.year
  | .auto => []

theorem daySeriesAux_eq_ranges (q : List Expense) (e : Date) :
    ∀ fuel c, daySeriesAux q e fuel c
      = (dayRangesAux e fuel c).map (fun r =>
          ⟨r.1, sumAmounts (q.filter (fun x => x.date == r.1)),
           (q.filter (fun x => x.date == r.1)).length⟩) := by
  intro fuel
  induction fuel with
  | zero => intro c; rfl
  | succ k ih =>
    intro c
    by_cases hce : c.toOrd ≤ e.toOrd
    · simp [daySeriesAux, dayRangesAux, hce, ih]
    · simp [daySeriesAux, dayRangesAux, hce]

theorem weekSeriesAux_eq_ranges (q : List Expense) (e : Date) :
    ∀ fuel c, weekSeriesAux q e fuel c
      = (weekRangesAux e fuel c).map (fun r =>
          ⟨r.1, sumAmounts (q.filter (fun x => dleB r.1 x.date && dleB x.date r.2)),
           (q.filter (fun x => dleB r.1 x.date && dleB x.date r.2)).length⟩) := by
  intro fuel
  induction fuel with
  | zero => intro c; rfl
  | succ k ih =>
    intro c
    by_cases hce : c.toOrd ≤ e.toOrd
    · simp [weekSeriesAux, weekRangesAux, hce, ih]
    · simp [weekSeriesAux, weekRangesAux, hce]

theorem monthSeriesAux_eq_ranges (q : List Expense) (e : Date) :
    ∀ fuel c, monthSeriesAux q e fuel c
      = (monthRangesAux e fuel c).map (fun r =>
          ⟨r.1, sumAmounts (q.filter (fun x => dleB r.1 x.date && dleB x.date r.2)),
           (q.filter (fun x => dleB r.1 x.date && dleB x.date r.2)).length⟩) := by
  intro fuel
  induction fuel with
  | zero => intro c; rfl
  | succ k ih =>
    intro c
    by_cases hce : c.toOrd ≤ e.toOrd
    · simp [monthSeriesAux, monthRangesAux, hce, ih]
    · simp [monthSeriesAux, monthRangesAux, hce]

theorem yearSeriesAux_eq_ranges (q : List Expense) (s e : Date) :
    ∀ fuel y, yearSeriesAux q s e fuel y
      = (yearRangesAux s e fuel y).map (fun r =>
          ⟨r.1, sumAmounts (q.filter (fun x => dleB r.1 x.date && dleB x.date r.2)),
           (q.filter (fun x => dleB r.1 x.date && dleB x.date r.2)).length⟩) := by
  intro fuel
  induction fuel with
  | zero => intro y; rfl
  | succ k ih =>
    intro y
    by_cases hye : y ≤ e.year
    · simp [yearSeriesAux, yearRangesAux, hye, ih]
    · simp [yearSeriesAux, yearRangesAux, hye]

theorem nextMonthDate_day (c : Date) : (nextMonthDate c).day = c.day := by
  unfold nextMonthDate
  split <;> rfl

theorem nextMonthDate_valid (c : Date) (hc : c.valid) (hd : c.day = 1) :
    (nextMonthDate c).valid := by
  obtain ⟨hy, hm1, hm2, hd1, hd2⟩ := hc
  unfold nextMonthDate
  by_cases h12 : c.month == 12
  · rw [if_pos h12]
    refine ⟨?_, ?_, ?_, ?_, ?_⟩
    · show 1 ≤ c.year + 1
      omega
    · show 1 ≤ 1
      omega
    · show 1 ≤ 12
      omega
    · show 1 ≤ c.day
      omega
    · show c.day ≤ daysInMonth (c.year + 1) 1
      rw [hd, daysInMonth_1]
      omega
  · rw [if_neg h12]
    have hm : c.month ≠ 12 := by
      intro h
      exact h12 (by simp [h])
    refine ⟨hy, ?_, ?_, ?_, ?_⟩
    · show 1 ≤ c.month + 1
      omega
    · show c.month + 1 ≤ 12
      omega
    · show 1 ≤ c.day
      omega
    · show c.day ≤ daysInMonth c.year (c.month + 1)
      rw [hd]
      exact daysInMonth_pos _ _

theorem toOrd_nextMonthDate (c : Date) (hc : c.valid) (hd : c.day = 1) :
    (nextMonthDate c).toOrd = c.toOrd + daysInMonth c.year c.month := by
  obtain ⟨hy, hm1, hm2, hd1, hd2⟩ := hc
  unfold nextMonthDate
  by_cases h12 : c.month == 12
  · rw [if_pos h12]
    have hm : c.month = 12 := by
      have := of_decide_eq_true h12
      exact this
    have h13 := daysBeforeYear_plus13 c.year hy
    have hstep : daysBeforeMonth c.year 13
        = daysBeforeMonth c.year 12 + daysInMonth c.year 12 :=
      daysBeforeMonth_succ c.year 12 (by norm_num)
    show daysBeforeYear (c.year + 1) + daysBeforeMonth (c.year + 1) 1 + c.day
      = daysBeforeYear c.year + daysBeforeMonth c.year c.month + c.day
        + daysInMonth c.year c.month
    rw [daysBeforeMonth_1, hm]
    omega
  · rw [if_neg h12]
    have hm : c.month ≠ 12 := by
      intro h
      exact h12 (by simp [h])
    have hstep := daysBeforeMonth_succ c.year c.month hm1
    show daysBeforeYear c.year + daysBeforeMonth c.year (c.month + 1) + c.day
      = daysBeforeYear c.year + daysBeforeMonth c.year c.month + c.day
        + daysInMonth c.year c.month
    omega

theorem dayRanges_lo (e : Date) :
    ∀ fuel c, c.valid →
      ∀ r ∈ dayRangesAux e fuel c, c.toOrd ≤ r.1.toOrd ∧ r.1.valid ∧ r.2 = r.1 := by
  intro fuel
  induction fuel with
  | zero =>
    intro c hc r hr
    simp [dayRangesAux] at hr
  | succ k ih =>
    intro c hc r hr
    by_cases hce : c.toOrd ≤ e.toOrd
    · rw [show dayRangesAux e (k + 1) c = (c, c) :: dayRangesAux e k (succDay c) from by
        simp [dayRangesAux, hce]] at hr
      rcases List.mem_cons.mp hr with hr | hr
      · rw [hr]
        exact ⟨le_refl _, hc, rfl⟩
      · have := ih (succDay c) (succDay_valid c hc) r hr
        have hs := toOrd_succDay c hc
        exact ⟨by omega, this.2⟩
    · rw [show dayRangesAux e (k + 1) c = [] from by simp [dayRangesAux, hce]] at hr
      simp at hr

theorem weekRanges_lo (e : Date) (he : e.valid) :
    ∀ fuel c, c.valid →
      ∀ r ∈ weekRangesAux e fuel c,
        c.toOrd ≤ r.1.toOrd ∧ r.1.toOrd ≤ r.2.toOrd ∧ r.2.toOrd ≤ e.toOrd := by
  intro fuel
  induction fuel with
  | zero =>
    intro c hc r hr
    simp [weekRangesAux] at hr
  | succ k ih =>
    intro c hc r hr
    by_cases hce : c.toOrd ≤ e.toOrd
    · rw [show weekRangesAux e (k + 1) c
          = (c, dmin (addDays c 6) e)
            :: weekRangesAux e k (succDay (dmin (addDays c 6) e)) from by
        simp [weekRangesAux, hce]] at hr
      have hadd := toOrd_addDays c hc 6
      have hminv := dmin_valid (addDays c 6) e hadd.2 he
      have hmin := toOrd_dmin (addDays c 6) e
      rcases List.mem_cons.mp hr with hr | hr
      · rw [hr]
        refine ⟨le_refl _, ?_, ?_⟩ <;> simp [hmin] <;> omega
      · have := ih (succDay (dmin (addDays c 6) e)) (succDay_valid _ hminv) r hr
        have hs := toOrd_succDay _ hminv
        refine ⟨?_, this.2⟩
        rw [hs] at this
        omega
    · rw [show weekRangesAux e (k + 1) c = [] from by simp [weekRangesAux, hce]] at hr
      simp at hr

theorem monthRanges_lo (e : Date) (he : e.valid) :
    ∀ fuel c, c.valid → c.day = 1 →
      ∀ r ∈ monthRangesAux e fuel c,
        c.toOrd ≤ r.1.toOrd ∧ r.1.toOrd ≤ r.2.toOrd ∧ r.2.toOrd ≤ e.toOrd := by
  intro fuel
  induction fuel with
  | zero =>
    intro c hc hd r hr
    simp [monthRangesAux] at hr
  | succ k ih =>
    intro c hc hd r hr
    by_cases hce : c.toOrd ≤ e.toOrd
    · rw [show monthRangesAux e (k + 1) c
          = (c, dmin (predDay (nextMonthDate c)) e)
            :: monthRangesAux e k (nextMonthDate c) from by
        simp [monthRangesAux, hce]] at hr
      have hnmv := nextMonthDate_valid c hc hd
      have hnm := toOrd_nextMonthDate c hc hd
      have hdimp := daysInMonth_pos c.year c.month
      have hcop := toOrd_pos c hc
      have hpred := toOrd_predDay (nextMonthDate c) hnmv (by omega)
      have hminv := dmin_valid (predDay (nextMonthDate c)) e hpred.2 he
      have hmin := toOrd_dmin (predDay (nextMonthDate c)) e
      rcases List.mem_cons.mp hr with hr | hr
      · rw [hr]
        refine ⟨le_refl _, ?_, ?_⟩ <;> simp [hmin] <;> omega
      · have := ih (nextMonthDate c) hnmv (by rw [nextMonthDate_day, hd]) r hr
        refine ⟨?_, this.2⟩
        omega
    · rw [show monthRangesAux e (k + 1) c = [] from by simp [monthRangesAux, hce]] at hr
      simp at hr

theorem yearRanges_lo (s e : Date) (hs : s.valid) (he : e.valid)
    (hse : s.toOrd ≤ e.toOrd) :
    ∀ fuel y, 1 ≤ y → s.year ≤ y →
      ∀ r ∈ yearRangesAux s e fuel y,
        daysBeforeYear y + 1 ≤ r.1.toOrd ∧ r.1.toOrd ≤ r.2.toOrd ∧ r.2.toOrd ≤ e.toOrd := by
  intro fuel
  induction fuel with
  | zero =>
    intro y hy hsy r hr
    simp [yearRangesAux] at hr
  | succ k ih =>
    intro y hy hsy r hr
    by_cases hye : y ≤ e.year
    · rw [show yearRangesAux s e (k + 1) y
          = (dmax ⟨y, 1, 1⟩ s, dmin ⟨y, 12, 31⟩ e)
            :: yearRangesAux s e k (y + 1) from by
        simp [yearRangesAux, hye]] at hr
      rcases List.mem_cons.mp hr with hr | hr
      · rw [hr]
        have hmax := toOrd_dmax ⟨y, 1, 1⟩ s
        have hmin := toOrd_dmin ⟨y, 12, 31⟩ e
        have hJ : (Date.toOrd ⟨y, 1, 1⟩) = daysBeforeYear y + 1 := by
          show daysBeforeYear y + daysBeforeMonth y 1 + 1 = _
          rw [daysBeforeMonth_1]
        have hD : (Date.toOrd ⟨y, 12, 31⟩) = daysBeforeYear (y + 1) := by
          show daysBeforeYear y + daysBeforeMonth y 12 + 31 = _
          have hstep : daysBeforeMonth y 13
              = daysBeforeMonth y 12 + daysInMonth y 12 :=
            daysBeforeMonth_succ y 12 (by norm_num)
          rw [daysInMonth_12] at hstep
          rw [daysBeforeYear_plus13 y hy]
          omega
        have hsb := toOrd_year_bounds s hs
        have heb := toOrd_year_bounds e he
        have hmono1 := daysBeforeYear_mono y e.year hye
        have hmono3 := daysBeforeYear_mono (s.year + 1) (y + 1) (by omega)
        have hmono2 : daysBeforeYear y + 1 ≤ daysBeforeYear (y + 1) := by
          have := daysBeforeYear_succ y hy
          by_cases hL : isLeap y = true <;> simp [hL] at this <;> omega
        refine ⟨?_, ?_, ?_⟩
        · show daysBeforeYear y + 1 ≤ (dmax ⟨y, 1, 1⟩ s).toOrd
          rw [hmax, hJ]
          omega
        · show (dmax ⟨y, 1, 1⟩ s).toOrd ≤ (dmin ⟨y, 12, 31⟩ e).toOrd
          rw [hmax, hmin, hJ, hD]
          omega
        · show (dmin ⟨y, 12, 31⟩ e).toOrd ≤ e.toOrd
          rw [hmin]
          omega
      · have := ih (y + 1) (by omega) (by omega) r hr
        have hmono2 : daysBeforeYear y ≤ daysBeforeYear (y + 1) :=
          daysBeforeYear_mono y (y + 1) (by omega)
        exact ⟨by omega, this.2⟩
    · rw [show yearRangesAux s e (k + 1) y = [] from by simp [yearRangesAux, hye]] at hr
      simp at hr

theorem toOrd_jan1 (y : Nat) : (Date.toOrd ⟨y, 1, 1⟩) = daysBeforeYear y + 1 := by
  show daysBeforeYear y + daysBeforeMonth y 1 + 1 = _
  rw [daysBeforeMonth_1]

theorem toOrd_dec31 (y : Nat) (hy : 1 ≤ y) :
    (Date.toOrd ⟨y, 12, 31⟩) = daysBeforeYear (y + 1) := by
  show daysBeforeYear y + daysBeforeMonth y 12 + 31 = _
  have hstep : daysBeforeMonth y 13 = daysBeforeMonth y 12 + daysInMonth y 12 :=
    daysBeforeMonth_succ y 12 (by norm_num)
  rw [daysInMonth_12] at hstep
  rw [daysBeforeYear_plus13 y hy]
  omega

theorem dayRanges_count (e : Date) (he : e.valid) :
    ∀ fuel c, c.valid → e.toOrd + 1 - c.toOrd ≤ fuel →
      ∀ d : Date, c.toOrd ≤ d.toOrd → d.toOrd ≤ e.toOrd →
        (dayRangesAux e fuel c).countP (fun r => dleB r.1 d && dleB d r.2) = 1 := by
  intro fuel
  induction fuel with
  | zero =>
    intro c hc hf d h1 h2
    omega
  | succ k ih =>
    intro c hc hf d h1 h2
    have hce : c.toOrd ≤ e.toOrd := le_trans h1 h2
    have hs := toOrd_succDay c hc
    rw [show dayRangesAux e (k + 1) c = (c, c) :: dayRangesAux e k (succDay c) from by
      simp [dayRangesAux, hce]]
    rw [List.countP_cons]
    by_cases hd : d.toOrd ≤ c.toOrd
    · have hhead : (dleB c d && dleB d c) = true := by
        simp [dleB]
        omega
      have h0 : (dayRangesAux e k (succDay c)).countP
          (fun r => dleB r.1 d && dleB d r.2) = 0 := by
        apply List.countP_eq_zero.mpr
        intro r hr
        have hlo := dayRanges_lo e k (succDay c) (succDay_valid c hc) r hr
        simp [dleB]
        omega
      rw [hhead, if_pos rfl, h0]
    · have hhead : (dleB c d && dleB d c) = false := by
        simp [dleB]
        omega
      have hrec := ih (succDay c) (succDay_valid c hc) (by omega) d (by omega) h2
      rw [hhead, if_neg Bool.false_ne_true, hrec]

theorem weekRanges_count (e : Date) (he : e.valid) :
    ∀ fuel c, c.valid → e.toOrd + 1 - c.toOrd ≤ fuel →
      ∀ d : Date, c.toOrd ≤ d.toOrd → d.toOrd ≤ e.toOrd →
        (weekRangesAux e fuel c).countP (fun r => dleB r.1 d && dleB d r.2) = 1 := by
  intro fuel
  induction fuel with
  | zero =>
    intro c hc hf d h1 h2
    omega
  | succ k ih =>
    intro c hc hf d h1 h2
    have hce : c.toOrd ≤ e.toOrd := le_trans h1 h2
    have hadd := toOrd_addDays c hc 6
    have hminv := dmin_valid (addDays c 6) e hadd.2 he
    have hmin := toOrd_dmin (addDays c 6) e
    have hsw := toOrd_succDay _ hminv
    rw [show weekRangesAux e (k + 1) c
        = (c, dmin (addDays c 6) e)
          :: weekRangesAux e k (succDay (dmin (addDays c 6) e)) from by
      simp [weekRangesAux, hce]]
    rw [List.countP_cons]
    by_cases hd : d.toOrd ≤ (dmin (addDays c 6) e).toOrd
    · have hhead : (dleB c d && dleB d (dmin (addDays c 6) e)) = true := by
        simp [dleB]
        exact ⟨h1, hd⟩
      have h0 : (weekRangesAux e k (succDay (dmin (addDays c 6) e))).countP
          (fun r => dleB r.1 d && dleB d r.2) = 0 := by
        apply List.countP_eq_zero.mpr
        intro r hr
        have hlo := weekRanges_lo e he k (succDay (dmin (addDays c 6) e))
          (succDay_valid _ hminv) r hr
        simp [dleB]
        omega
      rw [hhead, if_pos rfl, h0]
    · have hhead : (dleB c d && dleB d (dmin (addDays c 6) e)) = false := by
        simp [dleB]
        omega
      have hrec := ih (succDay (dmin (addDays c 6) e)) (succDay_valid _ hminv)
        (by rw [hsw, hmin]; omega) d (by omega) h2
      rw [hhead, if_neg Bool.false_ne_true, hrec]

theorem monthRanges_count (e : Date) (he : e.valid) :
    ∀ fuel c, c.valid → c.day = 1 → e.toOrd + 1 - c.toOrd ≤ fuel →
      ∀ d : Date, c.toOrd ≤ d.toOrd → d.toOrd ≤ e.toOrd →
        (monthRangesAux e fuel c).countP (fun r => dleB r.1 d && dleB d r.2) = 1 := by
  intro fuel
  induction fuel with
  | zero =>
    intro c hc hd1 hf d h1 h2
    omega
  | succ k ih =>
    intro c hc hd1 hf d h1 h2
    have hce : c.toOrd ≤ e.toOrd := le_trans h1 h2
    have hnmv := nextMonthDate_valid c hc hd1
    have hnm := toOrd_nextMonthDate c hc hd1
    have hdimp := daysInMonth_pos c.year c.month
    have hcop := toOrd_pos c hc
    have hpred := toOrd_predDay (nextMonthDate c) hnmv (by omega)
    have hminv := dmin_valid (predDay (nextMonthDate c)) e hpred.2 he
    have hmin := toOrd_dmin (predDay (nextMonthDate c)) e
    rw [show monthRangesAux e (k + 1) c
        = (c, dmin (predDay (nextMonthDate c)) e)
          :: monthRangesAux e k (nextMonthDate c) from by
      simp [monthRangesAux, hce]]
    rw [List.countP_cons]
    by_cases hd : d.toOrd ≤ (dmin (predDay (nextMonthDate c)) e).toOrd
    · have hhead : (dleB c d && dleB d (dmin (predDay (nextMonthDate c)) e)) = true := by
        simp [dleB]
        exact ⟨h1, hd⟩
      have h0 : (monthRangesAux e k (nextMonthDate c)).countP
          (fun r => dleB r.1 d && dleB d r.2) = 0 := by
        apply List.countP_eq_zero.mpr
        intro r hr
        have hlo := monthRanges_lo e he k (nextMonthDate c) hnmv
          (by rw [nextMonthDate_day, hd1]) r hr
        simp [dleB]
        omega
      rw [hhead, if_pos rfl, h0]
    · have h2f : dleB d (dmin (predDay (nextMonthDate c)) e) = false := by
        unfold dleB
        exact decide_eq_false hd
      have hhead : (dleB c d && dleB d (dmin (predDay (nextMonthDate c)) e)) = false := by
        rw [h2f, Bool.and_false]
      have hrec := ih (nextMonthDate c) hnmv (by rw [nextMonthDate_day, hd1])
        (by omega) d (by omega) h2
      rw [hhead, if_neg Bool.false_ne_true, hrec]

theorem yearRanges_count (s e : Date) (hs : s.valid) (he : e.valid)
    (hse : s.toOrd ≤ e.toOrd) :
    ∀ fuel y, 1 ≤ y → s.year ≤ y → e.year + 1 - y ≤ fuel →
      ∀ d : Date, daysBeforeYear y + 1 ≤ d.toOrd → s.toOrd ≤ d.toOrd →
        d.toOrd ≤ e.toOrd →
        (yearRangesAux s e fuel y).countP (fun r => dleB r.1 d && dleB d r.2) = 1 := by
  intro fuel
  induction fuel with
  | zero =>
    intro y hy hsy hf d h1 h1s h2
    exfalso
    have heb := toOrd_year_bounds e he
    have hmono := daysBeforeYear_mono (e.year + 1) y (by omega)
    omega
  | succ k ih =>
    intro y hy hsy hf d h1 h1s h2
    have heb := toOrd_year_bounds e he
    have hsb := toOrd_year_bounds s hs
    have hye : y ≤ e.year := by
      by_contra hcon
      have hmono := daysBeforeYear_mono (e.year + 1) y (by omega)
      omega
    have hmax := toOrd_dmax ⟨y, 1, 1⟩ s
    have hmin := toOrd_dmin ⟨y, 12, 31⟩ e
    have hJ := toOrd_jan1 y
    have hD := toOrd_dec31 y hy
    rw [show yearRangesAux s e (k + 1) y
        = (dmax ⟨y, 1, 1⟩ s, dmin ⟨y, 12, 31⟩ e)
          :: yearRangesAux s e k (y + 1) from by
      simp [yearRangesAux, hye]]
    rw [List.countP_cons]
    by_cases hd : d.toOrd ≤ (dmin ⟨y, 12, 31⟩ e).toOrd
    · have hhead : (dleB (dmax ⟨y, 1, 1⟩ s) d && dleB d (dmin ⟨y, 12, 31⟩ e)) = true := by
        simp [dleB]
        refine ⟨?_, ?_⟩
        · rw [hmax, hJ]
          omega
        · omega
      have h0 : (yearRangesAux s e k (y + 1)).countP
          (fun r => dleB r.1 d && dleB d r.2) = 0 := by
        apply List.countP_eq_zero.mpr
        intro r hr
        have hlo := yearRanges_lo s e hs he hse k (y + 1) (by omega) (by omega) r hr
        rw [hmin, hD] at hd
        simp [dleB]
        omega
      rw [hhead, if_pos rfl, h0]
    · have h2f : dleB d (dmin ⟨y, 12, 31⟩ e) = false := by
        unfold dleB
        exact decide_eq_false hd
      have hhead : (dleB (dmax ⟨y, 1, 1⟩ s) d && dleB d (dmin ⟨y, 12, 31⟩ e)) = false := by
        rw [h2f, Bool.and_false]
      rw [hmin, hD] at hd
      have hd2 : daysBeforeYear (y + 1) + 1 ≤ d.toOrd := by omega
      have hrec := ih (y + 1) (by omega) (by omega) (by omega) d hd2 h1s h2
      rw [hhead, if_neg Bool.false_ne_true, hrec]

theorem dayRanges_pairwise (e : Date) :
    ∀ fuel c, c.valid →
      ((dayRangesAux e fuel c).map (fun r => r.1)).Pairwise
        (fun a b => a.toOrd < b.toOrd) := by
  intro fuel
  induction fuel with
  | zero =>
    intro c hc
    simp [dayRangesAux]
  | succ k ih =>
    intro c hc
    by_cases hce : c.toOrd ≤ e.toOrd
    · rw [show dayRangesAux e (k + 1) c = (c, c) :: dayRangesAux e k (succDay c) from by
        simp [dayRangesAux, hce]]
      rw [List.map_cons, List.pairwise_cons]
      refine ⟨?_, ih (succDay c) (succDay_valid c hc)⟩
      intro b hb
      obtain ⟨r, hr, hrb⟩ := List.mem_map.mp hb
      have hlo := dayRanges_lo e k (succDay c) (succDay_valid c hc) r hr
      have hs := toOrd_succDay c hc
      rw [← hrb]
      show c.toOrd < r.1.toOrd
      omega
    · rw [show dayRangesAux e (k + 1) c = [] from by simp [dayRangesAux, hce]]
      simp

theorem weekRanges_pairwise (e : Date) (he : e.valid) :
    ∀ fuel c, c.valid →
      ((weekRangesAux e fuel c).map (fun r => r.1)).Pairwise
        (fun a b => a.toOrd < b.toOrd) := by
  intro fuel
  induction fuel with
  | zero =>
    intro c hc
    simp [weekRangesAux]
  | succ k ih =>
    intro c hc
    by_cases hce : c.toOrd ≤ e.toOrd
    · rw [show weekRangesAux e (k + 1) c
          = (c, dmin (addDays c 6) e)
            :: weekRangesAux e k (succDay (dmin (addDays c 6) e)) from by
        simp [weekRangesAux, hce]]
      have hadd := toOrd_addDays c hc 6
      have hminv := dmin_valid (addDays c 6) e hadd.2 he
      have hmin := toOrd_dmin (addDays c 6) e
      have hsw := toOrd_succDay _ hminv
      rw [List.map_cons, List.pairwise_cons]
      refine ⟨?_, ih _ (succDay_valid _ hminv)⟩
      intro b hb
      obtain ⟨r, hr, hrb⟩ := List.mem_map.mp hb
      have hlo := weekRanges_lo e he k (succDay (dmin (addDays c 6) e))
        (succDay_valid _ hminv) r hr
      rw [← hrb]
      show c.toOrd < r.1.toOrd
      rw [hmin] at hsw
      omega
    · rw [show weekRangesAux e (k + 1) c = [] from by simp [weekRangesAux, hce]]
      simp

theorem monthRanges_pairwise (e : Date) (he : e.valid) :
    ∀ fuel c, c.valid → c.day = 1 →
      ((monthRangesAux e fuel c).map (fun r => r.1)).Pairwise
        (fun a b => a.toOrd < b.toOrd) := by
  intro fuel
  induction fuel with
  | zero =>
    intro c hc hd1
    simp [monthRangesAux]
  | succ k ih =>
    intro c hc hd1
    by_cases hce : c.toOrd ≤ e.toOrd
    · rw [show monthRangesAux e (k + 1) c
          = (c, dmin (predDay (nextMonthDate c)) e)
            :: monthRangesAux e k (nextMonthDate c) from by
        simp [monthRangesAux, hce]]
      have hnmv := nextMonthDate_valid c hc hd1
      have hnm := toOrd_nextMonthDate c hc hd1
      have hdimp := daysInMonth_pos c.year c.month
      rw [List.map_cons, List.pairwise_cons]
      refine ⟨?_, ih _ hnmv (by rw [nextMonthDate_day, hd1])⟩
      intro b hb
      obtain ⟨r, hr, hrb⟩ := List.mem_map.mp hb
      have hlo := monthRanges_lo e he k (nextMonthDate c) hnmv
        (by rw [nextMonthDate_day, hd1]) r hr
      rw [← hrb]
      show c.toOrd < r.1.toOrd
      omega
    · rw [show monthRangesAux e (k + 1) c = [] from by simp [monthRangesAux, hce]]
      simp

theorem yearRanges_pairwise (s e : Date) (hs : s.valid) (he : e.valid)
    (hse : s.toOrd ≤ e.toOrd) :
    ∀ fuel y, 1 ≤ y → s.year ≤ y →
      ((yearRangesAux s e fuel y).map (fun r => r.1)).Pairwise
        (fun a b => a.toOrd < b.toOrd) := by
  intro fuel
  induction fuel with
  | zero =>
    intro y hy hsy
    simp [yearRangesAux]
  | succ k ih =>
    intro y hy hsy
    by_cases hye : y ≤ e.year
    · rw [show yearRangesAux s e (k + 1) y
          = (dmax ⟨y, 1, 1⟩ s, dmin ⟨y, 12, 31⟩ e)
            :: yearRangesAux s e k (y + 1) from by
        simp [yearRangesAux, hye]]
      rw [List.map_cons, List.pairwise_cons]
      refine ⟨?_, ih (y + 1) (by omega) (by omega)⟩
      intro b hb
      obtain ⟨r, hr, hrb⟩ := List.mem_map.mp hb
      have hlo := yearRanges_lo s e hs he hse k (y + 1) (by omega) (by omega) r hr
      have hmax := toOrd_dmax ⟨y, 1, 1⟩ s
      have hJ := toOrd_jan1 y
      have hsb := toOrd_year_bounds s hs
      have hmono1 := daysBeforeYear_mono (s.year + 1) (y + 1) (by omega)
      have hmono2 : daysBeforeYear y + 1 ≤ daysBeforeYear (y + 1) := by
        have := daysBeforeYear_succ y hy
        by_cases hL : isLeap y = true <;> simp [hL] at this <;> omega
      rw [← hrb]
      show (dmax ⟨y, 1, 1⟩ s).toOrd < r.1.toOrd
      rw [hmax, hJ]
      omega
    · rw [show yearRangesAux s e (k + 1) y = [] from by simp [yearRangesAux, hye]]
      simp

theorem sum_map_addQ (l : List (Date × Date)) (f g : Date × Date → ℚ) :
    (l.map (fun a => f a + g a)).sum = (l.map f).sum + (l.map g).sum := by
  induction l with
  | nil => simp
  | cons x t ih =>
    simp [ih]
    ring

theorem sum_map_ite_count (rs : List (Date × Date)) (p : Date × Date → Bool) (a : ℚ) :
    (rs.map (fun r => if p r then a else 0)).sum = (rs.countP p : ℚ) * a := by
  induction rs with
  | nil => simp
  | cons r t ih =>
    rw [List.map_cons, List.sum_cons, ih, List.countP_cons]
    by_cases hp : p r = true
    · rw [if_pos hp, if_pos hp]
      push_cast
      ring
    · rw [if_neg hp, if_neg hp]
      push_cast
      ring

theorem sum_over_ranges (q : List Expense) (rs : List (Date × Date))
    (h : ∀ x ∈ q, rs.countP (fun r => dleB r.1 x.date && dleB x.date r.2) = 1) :
    (rs.map (fun r =>
        sumAmounts (q.filter (fun x => dleB r.1 x.date && dleB x.date r.2)))).sum
      = sumAmounts q := by
  induction q with
  | nil =>
    simp [sumAmounts]
  | cons x t ih =>
    have hx := h x (List.mem_cons_self x t)
    have hsplit : ∀ r : Date × Date,
        sumAmounts ((x :: t).filter (fun z => dleB r.1 z.date && dleB z.date r.2))
          = (if (dleB r.1 x.date && dleB x.date r.2) then x.amount else 0)
            + sumAmounts (t.filter (fun z => dleB r.1 z.date && dleB z.date r.2)) := by
      intro r
      rw [List.filter_cons]
      by_cases hp : (dleB r.1 x.date && dleB x.date r.2) = true
      · rw [if_pos hp, if_pos hp]
        simp [sumAmounts]
      · rw [if_neg hp, if_neg hp]
        simp
    rw [List.map_congr_left (fun r _ => hsplit r), sum_map_addQ, sum_map_ite_count,
      ih (fun y hy => h y (List.mem_cons_of_mem x hy)), hx]
    simp [sumAmounts]

theorem seriesBase_mem (user : Nat) (xs : List Expense) (s e : Date) (cur : String)
    (cat : Option Nat) (x : Expense) (hx : x ∈ seriesBase user xs s e cur cat) :
    x ∈ xs ∧ s.toOrd ≤ x.date.toOrd ∧ x.date.toOrd ≤ e.toOrd := by
  cases cat with
  | none =>
    rw [show seriesBase user xs s e cur none
        = xs.filter (fun x => x.userId == user && dleB s x.date
            && dleB x.date e && x.currency == cur) from rfl] at hx
    rw [List.mem_filter] at hx
    obtain ⟨hmem, hcond⟩ := hx
    simp only [Bool.and_eq_true, dleB, decide_eq_true_eq] at hcond
    exact ⟨hmem, hcond.1.1.2, hcond.1.2⟩
  | some c =>
    rw [show seriesBase user xs s e cur (some c)
        = (xs.filter (fun x => x.userId == user && dleB s x.date
            && dleB x.date e && x.currency == cur)).filter
              (fun x => x.categoryId == some c) from rfl] at hx
    rw [List.mem_filter] at hx
    obtain ⟨hx1, _⟩ := hx
    rw [List.mem_filter] at hx1
    obtain ⟨hmem, hcond⟩ := hx1
    simp only [Bool.and_eq_true, dleB, decide_eq_true_eq] at hcond
    exact ⟨hmem, hcond.1.1.2, hcond.1.2⟩

theorem eq_filter_eq_range (q : List Expense) (c : Date) (hc : c.valid)
    (hq : ∀ x ∈ q, x.date.valid) :
    q.filter (fun x => x.date == c)
      = q.filter (fun x => dleB c x.date && dleB x.date c) := by
  apply List.filter_congr
  intro x hx
  by_cases hxc : x.date = c
  · rw [hxc]
    simp [dleB]
  · have hne : x.date.toOrd ≠ c.toOrd := fun hh => hxc (toOrd_inj _ _ (hq x hx) hc hh)
    have h1 : (x.date == c) = false := by
      simp [hxc]
    rw [h1]
    by_cases hc1 : c.toOrd ≤ x.date.toOrd
    · have h2 : dleB x.date c = false := by
        unfold dleB
        exact decide_eq_false (by omega)
      rw [h2, Bool.and_false]
    · have h2 : dleB c x.date = false := by
        unfold dleB
        exact decide_eq_false hc1
      rw [h2, Bool.false_and]

theorem firstOfMonth_valid (s : Date) (hs : s.valid) :
    (Date.valid ⟨s.year, s.month, 1⟩) := by
  obtain ⟨hy, hm1, hm2, hd1, hd2⟩ := hs
  exact ⟨hy, hm1, hm2, le_refl 1, daysInMonth_pos _ _⟩

theorem toOrd_firstOfMonth_le (s : Date) (hs : s.valid) :
    (Date.toOrd ⟨s.year, s.month, 1⟩) ≤ s.toOrd := by
  obtain ⟨hy, hm1, hm2, hd1, hd2⟩ := hs
  show daysBeforeYear s.year + daysBeforeMonth s.year s.month + 1
    ≤ daysBeforeYear s.year + daysBeforeMonth s.year s.month + s.day
  omega

/-- C3: for each explicit grouping (day, week, month, year) and
`start_date <= end_date`, the bucket starts of the produced time series are
the bucket-range starts, every date in `[start_date, end_date]` falls in
exactly one bucket range (cover, no overlap), the bucket starts are strictly
increasing, and the sum of the per-bucket amounts equals the total amount of
the filtered expenses. -/
theorem C3_time_series_buckets (user : Nat) (xs : List Expense) (s e : Date)
    (cur : String) (cat : Option Nat) (g : GroupBy)
    (hs : s.valid) (he : e.valid) (hse : s.toOrd ≤ e.toOrd)
    (hdates : ∀ x ∈ xs, x.date.valid) (hg : g ≠ .auto) :
    (get_expense_time_series user xs s e g cur cat).map (fun en => en.date)
        = (bucketRanges g s e).map (fun r => r.1)
    ∧ (∀ d : Date, s.toOrd ≤ d.toOrd → d.toOrd ≤ e.toOrd →
        (bucketRanges g s e).countP (fun r => dleB r.1 d && dleB d r.2) = 1)
    ∧ ((bucketRanges g s e).map (fun r => r.1)).Pairwise
        (fun a b => a.toOrd < b.toOrd)
    ∧ ((get_expense_time_series user xs s e g cur cat).map (fun en => en.amount)).sum
        = sumAmounts (seriesBase user xs s e cur cat) := by
  have hqmem : ∀ x ∈ seriesBase user xs s e cur cat,
      x ∈ xs ∧ s.toOrd ≤ x.date.toOrd ∧ x.date.toOrd ≤ e.toOrd :=
    fun x hx => seriesBase_mem user xs s e cur cat x hx
  cases g with
  | auto => exact absurd rfl hg
  | day =>
    have hcorr : get_expense_time_series user xs s e .day cur cat
        = (dayRangesAux e (e.toOrd + 1 - s.toOrd) s).map (fun r =>
            ⟨r.1, sumAmounts ((seriesBase user xs s e cur cat).filter
               (fun x => x.date == r.1)),
             ((seriesBase user xs s e cur cat).filter
               (fun x => x.date == r.1)).length⟩) :=
      daySeriesAux_eq_ranges (seriesBase user xs s e cur cat) e
        (e.toOrd + 1 - s.toOrd) s
    refine ⟨?_, ?_, ?_, ?_⟩
    · rw [hcorr, List.map_map]
      rfl
    · intro d h1 h2
      exact dayRanges_count e he (e.toOrd + 1 - s.toOrd) s hs (le_refl _) d h1 h2
    · exact dayRanges_pairwise e (e.toOrd + 1 - s.toOrd) s hs
    · rw [hcorr, List.map_map]
      have hconv : ∀ r ∈ dayRangesAux e (e.toOrd + 1 - s.toOrd) s,
          sumAmounts ((seriesBase user xs s e cur cat).filter
              (fun x => x.date == r.1))
            = sumAmounts ((seriesBase user xs s e cur cat).filter
                (fun x => dleB r.1 x.date && dleB x.date r.2)) := by
        intro r hr
        have hlo := dayRanges_lo e (e.toOrd + 1 - s.toOrd) s hs r hr
        rw [hlo.2.2]
        rw [eq_filter_eq_range (seriesBase user xs s e cur cat) r.1 hlo.2.1
          (fun x hx => hdates x (hqmem x hx).1)]
      show ((dayRangesAux e (e.toOrd + 1 - s.toOrd) s).map (fun r =>
          sumAmounts ((seriesBase user xs s e cur cat).filter
            (fun x => x.date == r.1)))).sum
        = sumAmounts (seriesBase user xs s e cur cat)
      rw [List.map_congr_left (fun r hr => hconv r hr)]
      exact sum_over_ranges (seriesBase user xs s e cur cat) _
        (fun x hx => dayRanges_count e he (e.toOrd + 1 - s.toOrd) s hs (le_refl _)
          x.date (hqmem x hx).2.1 (hqmem x hx).2.2)
  | week =>
    have hcorr : get_expense_time_series user xs s e .week cur cat
        = (weekRangesAux e (e.toOrd + 1 - s.toOrd) s).map (fun r =>
            ⟨r.1, sumAmounts ((seriesBase user xs s e cur cat).filter
               (fun x => dleB r.1 x.date && dleB x.date r.2)),
             ((seriesBase user xs s e cur cat).filter
               (fun x => dleB r.1 x.date && dleB x.date r.2)).length⟩) :=
      weekSeriesAux_eq_ranges (seriesBase user xs s e cur cat) e
        (e.toOrd + 1 - s.toOrd) s
    refine ⟨?_, ?_, ?_, ?_⟩
    · rw [hcorr, List.map_map]
      rfl
    · intro d h1 h2
      exact weekRanges_count e he (e.toOrd + 1 - s.toOrd) s hs (le_refl _) d h1 h2
    · exact weekRanges_pairwise e he (e.toOrd + 1 - s.toOrd) s hs
    · rw [hcorr, List.map_map]
      exact sum_over_ranges (seriesBase user xs s e cur cat) _
        (fun x hx => weekRanges_count e he (e.toOrd + 1 - s.toOrd) s hs (le_refl _)
          x.date (hqmem x hx).2.1 (hqmem x hx).2.2)
  | month =>
    have hfv := firstOfMonth_valid s hs
    have hfle := toOrd_firstOfMonth_le s hs
    have hcorr : get_expense_time_series user xs s e .month cur cat
        = (monthRangesAux e
            (e.toOrd + 1 - (Date.toOrd ⟨s.year, s.month, 1⟩)) ⟨s.year, s.month, 1⟩).map
            (fun r =>
              ⟨r.1, sumAmounts ((seriesBase user xs s e cur cat).filter
                 (fun x => dleB r.1 x.date && dleB x.date r.2)),
               ((seriesBase user xs s e cur cat).filter
                 (fun x => dleB r.1 x.date && dleB x.date r.2)).length⟩) :=
      monthSeriesAux_eq_ranges (seriesBase user xs s e cur cat) e
        (e.toOrd + 1 - (Date.toOrd ⟨s.year, s.month, 1⟩)) ⟨s.year, s.month, 1⟩
    refine ⟨?_, ?_, ?_, ?_⟩
    · rw [hcorr, List.map_map]
      rfl
    · intro d h1 h2
      exact monthRanges_count e he (e.toOrd + 1 - (Date.toOrd ⟨s.year, s.month, 1⟩))
        ⟨s.year, s.month, 1⟩ hfv rfl (le_refl _) d (by omega) h2
    · exact monthRanges_pairwise e he
        (e.toOrd + 1 - (Date.toOrd ⟨s.year, s.month, 1⟩)) ⟨s.year, s.month, 1⟩ hfv rfl
    · rw [hcorr, List.map_map]
      exact sum_over_ranges (seriesBase user xs s e cur cat) _
        (fun x hx => monthRanges_count e he
          (e.toOrd + 1 - (Date.toOrd ⟨s.year, s.month, 1⟩)) ⟨s.year, s.month, 1⟩
          hfv rfl (le_refl _) x.date
          (le_trans hfle (hqmem x hx).2.1) (hqmem x hx).2.2)
  | year =>
    have hsy1 : 1 ≤ s.year := hs.1
    have hsb := toOrd_year_bounds s hs
    have hcorr : get_expense_time_series user xs s e .year cur cat
        = (yearRangesAux s e (e.year + 1 - s.year) s.year).map (fun r =>
            ⟨r.1, sumAmounts ((seriesBase user xs s e cur cat).filter
               (fun x => dleB r.1 x.date && dleB x.date r.2)),
             ((seriesBase user xs s e cur cat).filter
               (fun x => dleB r.1 x.date && dleB x.date r.2)).length⟩) :=
      yearSeriesAux_eq_ranges (seriesBase user xs s e cur cat) s e
        (e.year + 1 - s.year) s.year
    refine ⟨?_, ?_, ?_, ?_⟩
    · rw [hcorr, List.map_map]
      rfl
    · intro d h1 h2
      exact yearRanges_count s e hs he hse (e.year + 1 - s.year) s.year hsy1
        (le_refl _) (le_refl _) d (by omega) h1 h2
    · exact yearRanges_pairwise s e hs he hse (e.year + 1 - s.year) s.year hsy1
        (le_refl _)
    · rw [hcorr, List.map_map]
      exact sum_over_ranges (seriesBase user xs s e cur cat) _
        (fun x hx => yearRanges_count s e hs he hse (e.year + 1 - s.year) s.year hsy1
          (le_refl _) (le_refl _) x.date (by
            have := (hqmem x hx).2.1
            omega) (hqmem x hx).2.1 (hqmem x hx).2.2)

theorem C3_time_series_buckets_witness :
    (⟨2025, 3, 10⟩ : Date).valid ∧ (⟨2025, 3, 20⟩ : Date).valid
      ∧ (⟨2025, 3, 10⟩ : Date).toOrd ≤ (⟨2025, 3, 20⟩ : Date).toOrd
      ∧ (∀ x ∈ exExpenses, x.date.valid)
      ∧ GroupBy.week ≠ GroupBy.auto
      ∧ (get_expense_time_series 1 exExpenses ⟨2025, 3, 10⟩ ⟨2025, 3, 20⟩
            .week "USD" none).map (fun en => en.date)
          = (bucketRanges .week ⟨2025, 3, 10⟩ ⟨2025, 3, 20⟩).map (fun r => r.1) :=
  ⟨by decide, by decide, by decide, by decide, by decide,
    (C3_time_series_buckets 1 exExpenses ⟨2025, 3, 10⟩ ⟨2025, 3, 20⟩ "USD" none .week
      (by decide) (by decide) (by decide) (by decide) (by decide)).1⟩

/-! ## Accounts: verification/reset tokens (`accounts/models.py`, `accounts/views.py`,
`accounts/utils.py`) -/

structure VToken where
  userId : Nat
  token : String
  expires_at : Nat
  is_used : Bool
deriving DecidableEq, Repr

structure Account where
  id : Nat
  email_verified : Bool
  password : String
deriving DecidableEq, Repr

/-- `EmailVerificationToken.is_valid` / `PasswordResetToken.is_valid`:
not used and `expires_at > timezone.now()` (times as seconds). -/
def VToken.is_valid (t : VToken) (now : Nat) : Bool :=
  !t.is_used && decide (now < t.expires_at)

inductive PostOutcome
  | ok
  | badRequest
deriving DecidableEq, Repr

structure PostResult where
  status : PostOutcome
  users : List Account
  tokens : List VToken
deriving DecidableEq, Repr

/-- `user.email_verified = True; user.save(...)` on the user table. -/
def setEmailVerified (users : List Account) (uid : Nat) : List Account :=
  users.map (fun u => if u.id == uid then { u with email_verified := true } else u)

/-- `user.set_password(new_password); user.save()` on the user table (the
framework's hashing is outside the model; the stored credential changes
exactly when this runs). -/
def setPassword (users : List Account) (uid : Nat) (pw : String) : List Account :=
  users.map (fun u => if u.id == uid then { u with password := pw } else u)

/-- `token.is_used = True; token.save(...)` on the token table. -/
def markTokenUsed (tokens : List VToken) (code : String) : List VToken :=
  tokens.map (fun t => if t.token == code then { t with is_used := true } else t)

/-- `VerifyEmailView.post` (`accounts/views.py` 153-186): look up the
submitted code (the token column is unique), answer 400 when absent or
invalid, otherwise set the user's `email_verified` and mark the token used. -/
def verifyEmailPost (now : Nat) (users : List Account) (tokens : List VToken)
    (code : String) : PostResult :=
  match tokens.find? (fun t => t.token == code) with
  | none => ⟨.badRequest, users, tokens⟩
  | some verification =>
      if VToken.is_valid verification now then
        ⟨.ok, setEmailVerified users verification.userId, markTokenUsed tokens code⟩
      else ⟨.badRequest, users, tokens⟩

/-- `ResetPasswordView.post` (`accounts/views.py` 249-283): the serializer
requires a password of at least 8 characters, then the reset token is looked
up and checked as in email verification; on success the password is set and
the token marked used. -/
def resetPasswordPost (now : Nat) (users : List Account) (tokens : List VToken)
    (code : String) (new_password : String) : PostResult :=
  if new_password.length < 8 then ⟨.badRequest, users, tokens⟩
  else
    match tokens.find? (fun t => t.token == code) with
    | none => ⟨.badRequest, users, tokens⟩
    | some reset_token =>
        if VToken.is_valid reset_token now then
          ⟨.ok, setPassword users reset_token.userId new_password,
            markTokenUsed tokens code⟩
        else ⟨.badRequest, users, tokens⟩

theorem unique_token_mem (tokens : List VToken)
    (huniq : tokens.Pairwise (fun a b => a.token ≠ b.token))
    (t t' : VToken) (ht : t ∈ tokens) (ht' : t' ∈ tokens)
    (heq : t.token = t'.token) : t = t' := by
  induction tokens with
  | nil => cases ht
  | cons a l ih =>
    rw [List.pairwise_cons] at huniq
    rcases List.mem_cons.mp ht with h1 | h1 <;> rcases List.mem_cons.mp ht' with h2 | h2
    · rw [h1, h2]
    · exfalso
      exact huniq.1 t' h2 (h1 ▸ heq)
    · exfalso
      exact huniq.1 t h1 (h2 ▸ heq.symm)
    · exact ih huniq.2 h1 h2

theorem find?_markTokenUsed (tokens : List VToken) (code : String) :
    (markTokenUsed tokens code).find? (fun t => t.token == code)
      = (tokens.find? (fun t => t.token == code)).map
          (fun t => { t with is_used := true }) := by
  induction tokens with
  | nil => rfl
  | cons a l ih =>
    have hm : markTokenUsed (a :: l) code
        = (if a.token == code then { a with is_used := true } else a)
          :: markTokenUsed l code := rfl
    by_cases ha : (a.token == code) = true
    · rw [hm, if_pos ha, List.find?_cons, List.find?_cons, ha]
      rfl
    · have haf : (a.token == code) = false := by
        simpa using ha
      rw [hm, if_neg ha, List.find?_cons, List.find?_cons, haf]
      exact ih

theorem verifyEmailPost_badOfUsed (now : Nat) (users : List Account)
    (tokens : List VToken) (code : String) (t0 : VToken)
    (hfind : tokens.find? (fun t => t.token == code) = some t0)
    (hused : t0.is_used = true) :
    verifyEmailPost now users tokens code = ⟨.badRequest, users, tokens⟩ := by
  unfold verifyEmailPost
  rw [hfind]
  have hinv : VToken.is_valid t0 now = false := by
    unfold VToken.is_valid
    rw [hused]
    rfl
  dsimp only
  rw [if_neg (by rw [hinv]; exact Bool.false_ne_true)]

theorem verifyEmailPost_spec (now : Nat) (users : List Account) (tokens : List VToken)
    (code : String) (huniq : tokens.Pairwise (fun a b => a.token ≠ b.token)) :
    ((verifyEmailPost now users tokens code).status = .ok
        ↔ ∃ t ∈ tokens, t.token = code ∧ t.is_used = false ∧ now < t.expires_at)
    ∧ (∀ t ∈ tokens, t.token = code →
        (verifyEmailPost now users tokens code).status = .ok →
          (∀ u ∈ (verifyEmailPost now users tokens code).users,
              u.id = t.userId → u.email_verified = true)
          ∧ ∀ t' ∈ (verifyEmailPost now users tokens code).tokens,
              t'.token = code → t'.is_used = true)
    ∧ ((verifyEmailPost now users tokens code).status = .ok →
        ∀ now2, (verifyEmailPost now2 (verifyEmailPost now users tokens code).users
            (verifyEmailPost now users tokens code).tokens code).status = .badRequest)
    ∧ ((verifyEmailPost now users tokens code).status = .badRequest →
        (verifyEmailPost now users tokens code).users = users
          ∧ (verifyEmailPost now users tokens code).tokens = tokens) := by
  rcases hfind : tokens.find? (fun t => t.token == code) with _ | t0
  · have hres : verifyEmailPost now users tokens code = ⟨.badRequest, users, tokens⟩ := by
      unfold verifyEmailPost
      rw [hfind]
    have hnone := List.find?_eq_none.mp hfind
    refine ⟨?_, ?_, ?_, ?_⟩
    · rw [hres]
      constructor
      · intro h
        exact PostOutcome.noConfusion h
      · rintro ⟨t, htmem, htcode, _⟩
        exact absurd (by simp [htcode]) (hnone t htmem)
    · intro t htmem htcode hok
      rw [hres] at hok
      exact PostOutcome.noConfusion hok
    · intro hok
      rw [hres] at hok
      exact PostOutcome.noConfusion hok
    · intro _
      rw [hres]
      exact ⟨rfl, rfl⟩
  · have ht0mem := List.mem_of_find?_eq_some hfind
    have ht0pred := List.find?_some hfind
    have ht0code : t0.token = code := by simpa using ht0pred
    by_cases hv : VToken.is_valid t0 now = true
    · have hres : verifyEmailPost now users tokens code
          = ⟨.ok, setEmailVerified users t0.userId, markTokenUsed tokens code⟩ := by
        unfold verifyEmailPost
        rw [hfind]
        dsimp only
        rw [if_pos hv]
      have hvp : t0.is_used = false ∧ now < t0.expires_at := by
        unfold VToken.is_valid at hv
        simp at hv
        exact hv
      refine ⟨?_, ?_, ?_, ?_⟩
      · rw [hres]
        constructor
        · intro _
          exact ⟨t0, ht0mem, ht0code, hvp.1, hvp.2⟩
        · intro _
          rfl
      · intro t htmem htcode _
        have hteq : t = t0 :=
          unique_token_mem tokens huniq t t0 htmem ht0mem (by rw [htcode, ht0code])
        constructor
        · intro u hu hid
          rw [hres] at hu
          obtain ⟨u0, hu0, hu0eq⟩ := List.mem_map.mp hu
          by_cases hid0 : (u0.id == t0.userId) = true
          · rw [if_pos hid0] at hu0eq
            rw [← hu0eq]
          · rw [if_neg hid0] at hu0eq
            exfalso
            rw [hteq] at hid
            rw [← hu0eq] at hid
            exact absurd (by simp [hid]) hid0
        · intro t' ht' ht'code
          rw [hres] at ht'
          obtain ⟨t1, ht1, ht1eq⟩ := List.mem_map.mp ht'
          by_cases hc1 : (t1.token == code) = true
          · rw [if_pos hc1] at ht1eq
            rw [← ht1eq]
          · rw [if_neg hc1] at ht1eq
            exfalso
            rw [← ht1eq] at ht'code
            exact absurd (by simp [ht'code]) hc1
      · intro _ now2
        rw [hres]
        have hfind2 : (markTokenUsed tokens code).find? (fun t => t.token == code)
            = some { t0 with is_used := true } := by
          rw [find?_markTokenUsed tokens code, hfind]
          rfl
        rw [verifyEmailPost_badOfUsed now2 (setEmailVerified users t0.userId)
          (markTokenUsed tokens code) code { t0 with is_used := true } hfind2 rfl]
      · intro hbad
        rw [hres] at hbad
        exact PostOutcome.noConfusion hbad
    · have hres : verifyEmailPost now users tokens code = ⟨.badRequest, users, tokens⟩ := by
        unfold verifyEmailPost
        rw [hfind]
        dsimp only
        rw [if_neg hv]
      refine ⟨?_, ?_, ?_, ?_⟩
      · rw [hres]
        constructor
        · intro h
          exact PostOutcome.noConfusion h
        · rintro ⟨t, htmem, htcode, hhu, hhe⟩
          exfalso
          have hteq : t = t0 :=
            unique_token_mem tokens huniq t t0 htmem ht0mem (by rw [htcode, ht0code])
          apply hv
          unfold VToken.is_valid
          rw [← hteq, hhu]
          simp [hhe]
      · intro t htmem htcode hok
        rw [hres] at hok
        exact PostOutcome.noConfusion hok
      · intro hok
        rw [hres] at hok
        exact PostOutcome.noConfusion hok
      · intro _
        rw [hres]
        exact ⟨rfl, rfl⟩

theorem resetPasswordPost_badOfUsed (now : Nat) (users : List Account)
    (tokens : List VToken) (code : String) (pw : String) (t0 : VToken)
    (hfind : tokens.find? (fun t => t.token == code) = some t0)
    (hused : t0.is_used = true) :
    resetPasswordPost now users tokens code pw = ⟨.badRequest, users, tokens⟩ := by
  unfold resetPasswordPost
  by_cases hlen : pw.length < 8
  · rw [if_pos hlen]
  · rw [if_neg hlen, hfind]
    have hinv : VToken.is_valid t0 now = false := by
      unfold VToken.is_valid
      rw [hused]
      rfl
    dsimp only
    rw [if_neg (by rw [hinv]; exact Bool.false_ne_true)]

theorem resetPasswordPost_spec (now : Nat) (users : List Account)
    (tokens : List VToken) (code : String) (pw : String)
    (huniq : tokens.Pairwise (fun a b => a.token ≠ b.token)) :
    ((resetPasswordPost now users tokens code pw).status = .ok
        ↔ (8 ≤ pw.length
            ∧ ∃ t ∈ tokens, t.token = code ∧ t.is_used = false ∧ now < t.expires_at))
    ∧ (∀ t ∈ tokens, t.token = code →
        (resetPasswordPost now users tokens code pw).status = .ok →
          (∀ u ∈ (resetPasswordPost now users tokens code pw).users,
              u.id = t.userId → u.password = pw)
          ∧ ∀ t' ∈ (resetPasswordPost now users tokens code pw).tokens,
              t'.token = code → t'.is_used = true)
    ∧ ((resetPasswordPost now users tokens code pw).status = .ok →
        ∀ now2, (resetPasswordPost now2 (resetPasswordPost now users tokens code pw).users
            (resetPasswordPost now users tokens code pw).tokens code pw).status
          = .badRequest)
    ∧ ((resetPasswordPost now users tokens code pw).status = .badRequest →
        (resetPasswordPost now users tokens code pw).users = users
          ∧ (resetPasswordPost now users tokens code pw).tokens = tokens) := by
  by_cases hlen : pw.length < 8
  · have hres : resetPasswordPost now users tokens code pw
        = ⟨.badRequest, users, tokens⟩ := by
      unfold resetPasswordPost
      rw [if_pos hlen]
    refine ⟨?_, ?_, ?_, ?_⟩
    · rw [hres]
      constructor
      · intro h
        exact PostOutcome.noConfusion h
      · rintro ⟨hl, _⟩
        omega
    · intro t htmem htcode hok
      rw [hres] at hok
      exact PostOutcome.noConfusion hok
    · intro hok
      rw [hres] at hok
      exact PostOutcome.noConfusion hok
    · intro _
      rw [hres]
      exact ⟨rfl, rfl⟩
  · rcases hfind : tokens.find? (fun t => t.token == code) with _ | t0
    · have hres : resetPasswordPost now users tokens code pw
          = ⟨.badRequest, users, tokens⟩ := by
        unfold resetPasswordPost
        rw [if_neg hlen, hfind]
      have hnone := List.find?_eq_none.mp hfind
      refine ⟨?_, ?_, ?_, ?_⟩
      · rw [hres]
        constructor
        · intro h
          exact PostOutcome.noConfusion h
        · rintro ⟨_, t, htmem, htcode, _⟩
          exact absurd (by simp [htcode]) (hnone t htmem)
      · intro t htmem htcode hok
        rw [hres] at hok
        exact PostOutcome.noConfusion hok
      · intro hok
        rw [hres] at hok
        exact PostOutcome.noConfusion hok
      · intro _
        rw [hres]
        exact ⟨rfl, rfl⟩
    · have ht0mem := List.mem_of_find?_eq_some hfind
      have ht0pred := List.find?_some hfind
      have ht0code : t0.token = code := by simpa using ht0pred
      by_cases hv : VToken.is_valid t0 now = true
      · have hres : resetPasswordPost now users tokens code pw
            = ⟨.ok, setPassword users t0.userId pw, markTokenUsed tokens code⟩ := by
          unfold resetPasswordPost
          rw [if_neg hlen, hfind]
          dsimp only
          rw [if_pos hv]
        have hvp : t0.is_used = false ∧ now < t0.expires_at := by
          unfold VToken.is_valid at hv
          simp at hv
          exact hv
        refine ⟨?_, ?_, ?_, ?_⟩
        · rw [hres]
          constructor
          · intro _
            exact ⟨by omega, t0, ht0mem, ht0code, hvp.1, hvp.2⟩
          · intro _
            rfl
        · intro t htmem htcode _
          have hteq : t = t0 :=
            unique_token_mem tokens huniq t t0 htmem ht0mem (by rw [htcode, ht0code])
          constructor
          · intro u hu hid
            rw [hres] at hu
            obtain ⟨u0, hu0, hu0eq⟩ := List.mem_map.mp hu
            by_cases hid0 : (u0.id == t0.userId) = true
            · rw [if_pos hid0] at hu0eq
              rw [← hu0eq]
            · rw [if_neg hid0] at hu0eq
              exfalso
              rw [hteq] at hid
              rw [← hu0eq] at hid
              exact absurd (by simp [hid]) hid0
          · intro t' ht' ht'code
            rw [hres] at ht'
            obtain ⟨t1, ht1, ht1eq⟩ := List.mem_map.mp ht'
            by_cases hc1 : (t1.token == code) = true
            · rw [if_pos hc1] at ht1eq
              rw [← ht1eq]
            · rw [if_neg hc1] at ht1eq
              exfalso
              rw [← ht1eq] at ht'code
              exact absurd (by simp [ht'code]) hc1
        · intro _ now2
          rw [hres]
          have hfind2 : (markTokenUsed tokens code).find? (fun t => t.token == code)
              = some { t0 with is_used := true } := by
            rw [find?_markTokenUsed tokens code, hfind]
            rfl
          rw [resetPasswordPost_badOfUsed now2 (setPassword users t0.userId pw)
            (markTokenUsed tokens code) code pw { t0 with is_used := true } hfind2 rfl]
        · intro hbad
          rw [hres] at hbad
          exact PostOutcome.noConfusion hbad
      · have hres : resetPasswordPost now users tokens code pw
            = ⟨.badRequest, users, tokens⟩ := by
          unfold resetPasswordPost
          rw [if_neg hlen, hfind]
          dsimp only
          rw [if_neg hv]
        refine ⟨?_, ?_, ?_, ?_⟩
        · rw [hres]
          constructor
          · intro h
            exact PostOutcome.noConfusion h
          · rintro ⟨_, t, htmem, htcode, hhu, hhe⟩
            exfalso
            have hteq : t = t0 :=
              unique_token_mem tokens huniq t t0 htmem ht0mem (by rw [htcode, ht0code])
            apply hv
            unfold VToken.is_valid
            rw [← hteq, hhu]
            simp [hhe]
        · intro t htmem htcode hok
          rw [hres] at hok
          exact PostOutcome.noConfusion hok
        · intro hok
          rw [hres] at hok
          exact PostOutcome.noConfusion hok
        · intro _
          rw [hres]
          exact ⟨rfl, rfl⟩

/-- C4: `VerifyEmailView.post` (and likewise `ResetPasswordView.post`)
succeeds exactly when a stored token equal to the submitted code exists, is
not marked used, and expires strictly later than now; on success it sets the
user's `email_verified` (resp. the new password) and marks the token used,
so a second submission of the same code is rejected with HTTP 400; on every
failure path the stored state is unchanged. -/
theorem C4_verify_and_reset_posts (now : Nat) (users : List Account)
    (tokens : List VToken) (code pw : String)
    (huniq : tokens.Pairwise (fun a b => a.token ≠ b.token)) :
    (((verifyEmailPost now users tokens code).status = .ok
        ↔ ∃ t ∈ tokens, t.token = code ∧ t.is_used = false ∧ now < t.expires_at)
    ∧ (∀ t ∈ tokens, t.token = code →
        (verifyEmailPost now users tokens code).status = .ok →
          (∀ u ∈ (verifyEmailPost now users tokens code).users,
              u.id = t.userId → u.email_verified = true)
          ∧ ∀ t' ∈ (verifyEmailPost now users tokens code).tokens,
              t'.token = code → t'.is_used = true)
    ∧ ((verifyEmailPost now users tokens code).status = .ok →
        ∀ now2, (verifyEmailPost now2 (verifyEmailPost now users tokens code).users
            (verifyEmailPost now users tokens code).tokens code).status = .badRequest)
    ∧ ((verifyEmailPost now users tokens code).status = .badRequest →
        (verifyEmailPost now users tokens code).users = users
          ∧ (verifyEmailPost now users tokens code).tokens = tokens))
    ∧ (((resetPasswordPost now users tokens code pw).status = .ok
        ↔ (8 ≤ pw.length
            ∧ ∃ t ∈ tokens, t.token = code ∧ t.is_used = false ∧ now < t.expires_at))
    ∧ (∀ t ∈ tokens, t.token = code →
        (resetPasswordPost now users tokens code pw).status = .ok →
          (∀ u ∈ (resetPasswordPost now users tokens code pw).users,
              u.id = t.userId → u.password = pw)
          ∧ ∀ t' ∈ (resetPasswordPost now users tokens code pw).tokens,
              t'.token = code → t'.is_used = true)
    ∧ ((resetPasswordPost now users tokens code pw).status = .ok →
        ∀ now2, (resetPasswordPost now2
            (resetPasswordPost now users tokens code pw).users
            (resetPasswordPost now users tokens code pw).tokens code pw).status
          = .badRequest)
    ∧ ((resetPasswordPost now users tokens code pw).status = .badRequest →
        (resetPasswordPost now users tokens code pw).users = users
          ∧ (resetPasswordPost now users tokens code pw).tokens = tokens)) :=
  ⟨verifyEmailPost_spec now users tokens code huniq,
   resetPasswordPost_spec now users tokens code pw huniq⟩

theorem C4_verify_and_reset_posts_witness :
    ([(⟨1, "123456", 100, false⟩ : VToken)].Pairwise (fun a b => a.token ≠ b.token))
      ∧ ((verifyEmailPost 50 [⟨1, false, "old"⟩] [⟨1, "123456", 100, false⟩]
            "123456").status = .ok
          ↔ ∃ t ∈ [(⟨1, "123456", 100, false⟩ : VToken)],
              t.token = "123456" ∧ t.is_used = false ∧ 50 < t.expires_at) :=
  ⟨by decide,
    (C4_verify_and_reset_posts 50 [⟨1, false, "old"⟩] [⟨1, "123456", 100, false⟩]
      "123456" "newpassword" (by decide)).1.1⟩

/-- `send_verification_email` (`accounts/utils.py` 27-57), restricted to its
effect on the token table: delete the user's unused tokens, then create one
new unused token expiring 24 hours (86400 seconds) after `now`. -/
def send_verification_email_tokens (now : Nat) (code : String) (uid : Nat)
    (tokens : List VToken) : List VToken :=
  tokens.filter (fun t => !(t.userId == uid && t.is_used == false))
    ++ [⟨uid, code, now + 24 * 60 * 60, false⟩]

/-- `send_password_reset_email` (`accounts/utils.py` 59-89), restricted to its
effect on the reset-token table: same shape as email verification. -/
def send_password_reset_email_tokens (now : Nat) (code : String) (uid : Nat)
    (tokens : List VToken) : List VToken :=
  tokens.filter (fun t => !(t.userId == uid && t.is_used == false))
    ++ [⟨uid, code, now + 24 * 60 * 60, false⟩]

theorem countP_filter_not (tokens : List VToken) (p : VToken → Bool) :
    (tokens.filter (fun t => !(p t))).countP p = 0 := by
  apply List.countP_eq_zero.mpr
  intro t ht
  rw [List.mem_filter] at ht
  simp at ht
  simp [ht.2]

/-- C9: after `send_verification_email` (resp. `send_password_reset_email`)
the user has exactly one unused token of that kind, and the new token is
unused, carries the generated code and expires exactly 24 hours after
creation. -/
theorem C9_send_email_tokens (now : Nat) (code : String) (uid : Nat)
    (tokens : List VToken) :
    ((send_verification_email_tokens now code uid tokens).countP
        (fun t => t.userId == uid && t.is_used == false) = 1
      ∧ ∃ t ∈ send_verification_email_tokens now code uid tokens,
          t.userId = uid ∧ t.is_used = false ∧ t.token = code
            ∧ t.expires_at = now + 24 * 60 * 60)
    ∧ ((send_password_reset_email_tokens now code uid tokens).countP
        (fun t => t.userId == uid && t.is_used == false) = 1
      ∧ ∃ t ∈ send_password_reset_email_tokens now code uid tokens,
          t.userId = uid ∧ t.is_used = false ∧ t.token = code
            ∧ t.expires_at = now + 24 * 60 * 60) := by
  have hcount : (tokens.filter
      (fun t => !(t.userId == uid && t.is_used == false))).countP
        (fun t => t.userId == uid && t.is_used == false) = 0 :=
    countP_filter_not tokens (fun t => t.userId == uid && t.is_used == false)
  have hnew : ([(⟨uid, code, now + 24 * 60 * 60, false⟩ : VToken)]).countP
      (fun t => t.userId == uid && t.is_used == false) = 1 := by
    simp [List.countP_cons]
  constructor
  · constructor
    · unfold send_verification_email_tokens
      rw [List.countP_append, hcount, hnew]
    · refine ⟨⟨uid, code, now + 24 * 60 * 60, false⟩, ?_, rfl, rfl, rfl, rfl⟩
      unfold send_verification_email_tokens
      rw [List.mem_append]
      right
      exact List.mem_singleton.mpr rfl
  · constructor
    · unfold send_password_reset_email_tokens
      rw [List.countP_append, hcount, hnew]
    · refine ⟨⟨uid, code, now + 24 * 60 * 60, false⟩, ?_, rfl, rfl, rfl, rfl⟩
      unfold send_password_reset_email_tokens
      rw [List.mem_append]
      right
      exact List.mem_singleton.mpr rfl

/-! ## Permissions (`accounts/permissions.py`, `expenses/permissions.py`) -/

structure AuthUser where
  is_authenticated : Bool
  is_superuser : Bool
  user_type : String
deriving DecidableEq, Repr

def manager_permissions : List String :=
  ["view_reports", "create_reports", "approve_requests", "view_users", "edit_content"]

def regular_permissions : List String :=
  ["view_own_profile", "edit_own_profile", "create_requests"]

/-- `has_permission` (`accounts/permissions.py` 53-92). -/
def has_permission (user : AuthUser) (action : String) : Bool :=
  if !user.is_authenticated then false
  else if user.is_superuser then true
  else if user.user_type == "admin" then true
  else if user.user_type == "manager" then manager_permissions.contains action
  else if user.user_type == "regular" then regular_permissions.contains action
  else false

/-- `IsOwner.has_object_permission`: `obj.user == request.user`. -/
def IsOwner_check (request_user obj_user : Nat) : Bool := obj_user == request_user

/-- `IsResourceOwner.has_object_permission`: `obj.user == request.user`. -/
def IsResourceOwner_check (request_user obj_user : Nat) : Bool := obj_user == request_user

/-- `IsExpenseOwner.has_object_permission`: `obj.user == request.user`. -/
def IsExpenseOwner_check (request_user obj_user : Nat) : Bool := obj_user == request_user

/-- `IsCategoryOwner.has_object_permission`: `obj.user == request.user`. -/
def IsCategoryOwner_check (request_user obj_user : Nat) : Bool := obj_user == request_user

/-- `IsBudgetOwner.has_object_permission`: `obj.user == request.user`. -/
def IsBudgetOwner_check (request_user obj_user : Nat) : Bool := obj_user == request_user

/-- `IsReportOwner.has_object_permission`: `obj.user == request.user`. -/
def IsReportOwner_check (request_user obj_user : Nat) : Bool := obj_user == request_user

/-- C5: for authenticated users (every `CustomUser` instance is), superusers
and `'admin'` users pass every action; non-superuser `'manager'` users pass
exactly the five manager actions; non-superuser `'regular'` users exactly the
three regular actions; and each ownership permission class grants object
access exactly when the object's user equals the requesting user. -/
theorem C5_has_permission (u : AuthUser) (action : String)
    (hauth : u.is_authenticated = true) :
    ((u.is_superuser = true ∨ u.user_type = "admin") → has_permission u action = true)
    ∧ (u.is_superuser = false → u.user_type = "manager" →
        (has_permission u action = true ↔ action ∈ manager_permissions))
    ∧ (u.is_superuser = false → u.user_type = "regular" →
        (has_permission u action = true ↔ action ∈ regular_permissions))
    ∧ (∀ ru ou : Nat,
        (IsOwner_check ru ou = true ↔ ou = ru)
        ∧ (IsResourceOwner_check ru ou = true ↔ ou = ru)
        ∧ (IsExpenseOwner_check ru ou = true ↔ ou = ru)
        ∧ (IsCategoryOwner_check ru ou = true ↔ ou = ru)
        ∧ (IsBudgetOwner_check ru ou = true ↔ ou = ru)
        ∧ (IsReportOwner_check ru ou = true ↔ ou = ru)) := by
  refine ⟨?_, ?_, ?_, ?_⟩
  · rintro (hsup | htype)
    · simp [has_permission, hauth, hsup]
    · by_cases hsup : u.is_superuser = true
      · simp [has_permission, hauth, hsup]
      · rw [Bool.not_eq_true] at hsup
        simp [has_permission, hauth, hsup, htype]
  · intro hsup htype
    simp [has_permission, hauth, hsup, htype]
  · intro hsup htype
    simp [has_permission, hauth, hsup, htype]
  · intro ru ou
    refine ⟨?_, ?_, ?_, ?_, ?_, ?_⟩ <;>
      simp [IsOwner_check, IsResourceOwner_check, IsExpenseOwner_check,
        IsCategoryOwner_check, IsBudgetOwner_check, IsReportOwner_check]

theorem C5_has_permission_witness :
    ((⟨true, true, "admin"⟩ : AuthUser).is_authenticated = true)
      ∧ (((⟨true, true, "admin"⟩ : AuthUser).is_superuser = true
            ∨ (⟨true, true, "admin"⟩ : AuthUser).user_type = "admin")
          → has_permission ⟨true, true, "admin"⟩ "manage_users" = true) :=
  ⟨rfl, (C5_has_permission ⟨true, true, "admin"⟩ "manage_users" rfl).1⟩

/-! ## 6-digit codes (`accounts/utils.py` 21-25) -/

/-- `random.randint(a, b)`: a uniformly chosen integer in `[a, b]` inclusive,
modelled with an explicit random seed `r`. -/
def randint (a b : Nat) (r : Nat) : Nat := a + r % (b - a + 1)

/-- `generate_six_digit_code`: the decimal string of `random.randint(100000,
999999)`. -/
def generate_six_digit_code (r : Nat) : String :=
  toString (randint 100000 999999 r)

/-- C6: every generated code is the decimal representation of an integer
between 100000 and 999999 inclusive, hence has exactly 6 decimal digits and
no leading zero (its leading digit `n / 10^5` is at least 1). -/
theorem C6_generate_six_digit_code (r : Nat) :
    ∃ n : Nat, generate_six_digit_code r = toString n
      ∧ 100000 ≤ n ∧ n ≤ 999999
      ∧ (Nat.digits 10 n).length = 6
      ∧ 1 ≤ n / 100000 ∧ n / 100000 ≤ 9 := by
  have h1 : 100000 ≤ randint 100000 999999 r := by
    unfold randint
    omega
  have h2 : randint 100000 999999 r ≤ 999999 := by
    unfold randint
    omega
  refine ⟨randint 100000 999999 r, rfl, h1, h2, ?_, by omega, by omega⟩
  rw [Nat.digits_len 10 _ (by norm_num) (by omega)]
  have hp5 : (10 : ℕ) ^ 5 = 100000 := by norm_num
  have hp6 : (10 : ℕ) ^ (5 + 1) = 1000000 := by norm_num
  rw [Nat.log_eq_of_pow_le_of_lt_pow (hp5 ▸ h1) (hp6 ▸ (by omega))]

/-! ## Expense summary (`get_expenses_summary`, `expenses/utils.py` 68-116) -/

structure Summary where
  total_expenses : ℚ
  expense_count : Nat
  average_expense : ℚ
  highest_expense : ℚ
  start_date : Date
  end_date : Date
deriving DecidableEq, Repr

/-- `Max('amount')` over a list of amounts (`None` on the empty set). -/
def listMaxQ : List ℚ → Option ℚ
  | [] => none
  | x :: t =>
    match listMaxQ t with
    | none => some x
    | some m => some (max x m)

/-- The effective date range of `get_expenses_summary`: the arguments when
both are present, else the first day of the current month through today. -/
def summaryRange (start_date end_date : Option Date) (today : Date) : Date × Date :=
  match start_date, end_date with
  | some s, some e => (s, e)
  | _, _ => (⟨today.year, today.month, 1⟩, today)

/-- The queryset of `get_expenses_summary`: user, date range, currency, and
category when given. -/
def summaryQueryset (user : Nat) (expenses : List Expense) (s e : Date)
    (category : Option Nat) (currency : String) : List Expense :=
  let queryset := expenses.filter (fun x =>
    x.userId == user && dleB s x.date && dleB x.date e && x.currency == currency)
  match category with
  | some c => queryset.filter (fun x => x.categoryId == some c)
  | none => queryset

/-- `get_expenses_summary` (`expenses/utils.py` 68-116): aggregates
`Sum`/`Count`/`Avg`/`Max` over the queryset, replacing `None` (no rows) by
`Decimal('0.00')`, and reports the date range used. -/
def get_expenses_summary (user : Nat) (expenses : List Expense)
    (start_date end_date : Option Date) (category : Option Nat)
    (currency : String) (today : Date) : Summary :=
  let se := summaryRange start_date end_date today
  let queryset := summaryQueryset user expenses se.1 se.2 category currency
  let amounts := queryset.map (fun x => x.amount)
  ⟨if queryset.isEmpty then 0 else amounts.sum,
   queryset.length,
   if queryset.isEmpty then 0 else amounts.sum / (queryset.length : ℚ),
   (listMaxQ amounts).getD 0,
   se.1, se.2⟩

theorem listMaxQ_eq_none (l : List ℚ) (h : listMaxQ l = none) : l = [] := by
  cases l with
  | nil => rfl
  | cons x t =>
    exfalso
    unfold listMaxQ at h
    rcases hm : listMaxQ t with _ | mt <;> rw [hm] at h <;> exact Option.noConfusion h

theorem listMaxQ_spec (l : List ℚ) (m : ℚ) (h : listMaxQ l = some m) :
    m ∈ l ∧ ∀ a ∈ l, a ≤ m := by
  induction l generalizing m with
  | nil => cases h
  | cons x t ih =>
    unfold listMaxQ at h
    rcases hm : listMaxQ t with _ | mt
    · rw [hm] at h
      obtain rfl : x = m := by
        cases h
        rfl
      constructor
      · exact List.mem_cons_self x t
      · intro a ha
        rcases List.mem_cons.mp ha with rfl | ha
        · exact le_refl a
        · exfalso
          rw [listMaxQ_eq_none t hm] at ha
          cases ha
    · rw [hm] at h
      obtain rfl : max x mt = m := by
        cases h
        rfl
      have iht := ih mt hm
      constructor
      · rcases max_choice x mt with hc | hc
        · rw [hc]
          exact List.mem_cons_self x t
        · rw [hc]
          exact List.mem_cons_of_mem x iht.1
      · intro a ha
        rcases List.mem_cons.mp ha with rfl | ha
        · exact le_max_left _ _
        · exact le_trans (iht.2 a ha) (le_max_right _ _)

theorem listMaxQ_some (l : List ℚ) (h : l ≠ []) : ∃ m, listMaxQ l = some m := by
  cases l with
  | nil => exact absurd rfl h
  | cons x t =>
    unfold listMaxQ
    rcases listMaxQ t with _ | mt
    · exact ⟨x, rfl⟩
    · exact ⟨max x mt, rfl⟩

/-- C7: `get_expenses_summary` returns the sum, count, average and maximum
of the amounts of the matching expenses; all three aggregates are `0` and
the count `0` when nothing matches; and when either date argument is
omitted the range is the first day of the current month through today. -/
theorem C7_get_expenses_summary (user : Nat) (expenses : List Expense)
    (start_date end_date : Option Date) (category : Option Nat)
    (currency : String) (today : Date) :
    (get_expenses_summary user expenses start_date end_date category currency
        today).total_expenses
      = sumAmounts (summaryQueryset user expenses
          (summaryRange start_date end_date today).1
          (summaryRange start_date end_date today).2 category currency)
    ∧ (get_expenses_summary user expenses start_date end_date category currency
        today).expense_count
      = (summaryQueryset user expenses
          (summaryRange start_date end_date today).1
          (summaryRange start_date end_date today).2 category currency).length
    ∧ (get_expenses_summary user expenses start_date end_date category currency
        today).average_expense
      = (if (summaryQueryset user expenses
              (summaryRange start_date end_date today).1
              (summaryRange start_date end_date today).2 category currency).length = 0
          then 0
          else sumAmounts (summaryQueryset user expenses
              (summaryRange start_date end_date today).1
              (summaryRange start_date end_date today).2 category currency)
            / ((summaryQueryset user expenses
                (summaryRange start_date end_date today).1
                (summaryRange start_date end_date today).2 category currency).length : ℚ))
    ∧ (summaryQueryset user expenses
          (summaryRange start_date end_date today).1
          (summaryRange start_date end_date today).2 category currency ≠ [] →
        ((get_expenses_summary user expenses start_date end_date category currency
            today).highest_expense
            ∈ (summaryQueryset user expenses
                (summaryRange start_date end_date today).1
                (summaryRange start_date end_date today).2 category currency).map
                  (fun x => x.amount)
          ∧ ∀ a ∈ (summaryQueryset user expenses
                (summaryRange start_date end_date today).1
                (summaryRange start_date end_date today).2 category currency).map
                  (fun x => x.amount),
              a ≤ (get_expenses_summary user expenses start_date end_date category
                currency today).highest_expense))
    ∧ (summaryQueryset user expenses
          (summaryRange start_date end_date today).1
          (summaryRange start_date end_date today).2 category currency = [] →
        (get_expenses_summary user expenses start_date end_date category currency
            today).total_expenses = 0
          ∧ (get_expenses_summary user expenses start_date end_date category currency
              today).average_expense = 0
          ∧ (get_expenses_summary user expenses start_date end_date category currency
              today).highest_expense = 0
          ∧ (get_expenses_summary user expenses start_date end_date category currency
              today).expense_count = 0)
    ∧ ((start_date = none ∨ end_date = none) →
        (get_expenses_summary user expenses start_date end_date category currency
            today).start_date = ⟨today.year, today.month, 1⟩
          ∧ (get_expenses_summary user expenses start_date end_date category currency
              today).end_date = today) := by
  set q := summaryQueryset user expenses
      (summaryRange start_date end_date today).1
      (summaryRange start_date end_date today).2 category currency with hq
  refine ⟨?_, rfl, ?_, ?_, ?_, ?_⟩
  · show (if q.isEmpty then 0 else (q.map (fun x => x.amount)).sum) = sumAmounts q
    by_cases hqe : q.isEmpty
    · rw [if_pos hqe]
      rw [List.isEmpty_iff] at hqe
      rw [hqe]
      rfl
    · rw [if_neg hqe]
      rfl
  · show (if q.isEmpty then 0
        else (q.map (fun x => x.amount)).sum / (q.length : ℚ))
      = (if q.length = 0 then 0 else sumAmounts q / (q.length : ℚ))
    by_cases hqe : q.isEmpty
    · rw [if_pos hqe]
      rw [List.isEmpty_iff_length_eq_zero] at hqe
      rw [if_pos hqe]
    · rw [if_neg hqe]
      rw [List.isEmpty_iff_length_eq_zero] at hqe
      rw [if_neg hqe]
      rfl
  · intro hne
    have hamne : q.map (fun x => x.amount) ≠ [] := by
      intro hcon
      exact hne (List.map_eq_nil.mp hcon)
    obtain ⟨m, hm⟩ := listMaxQ_some _ hamne
    have hms := listMaxQ_spec _ m hm
    show ((listMaxQ (q.map (fun x => x.amount))).getD 0
        ∈ q.map (fun x => x.amount))
      ∧ ∀ a ∈ q.map (fun x => x.amount),
          a ≤ (listMaxQ (q.map (fun x => x.amount))).getD 0
    rw [hm]
    exact ⟨hms.1, hms.2⟩
  · intro hnil
    refine ⟨?_, ?_, ?_, ?_⟩
    · show (if q.isEmpty then 0 else (q.map (fun x => x.amount)).sum) = 0
      rw [if_pos (by rw [hnil]; rfl)]
    · show (if q.isEmpty then 0
          else (q.map (fun x => x.amount)).sum / (q.length : ℚ)) = 0
      rw [if_pos (by rw [hnil]; rfl)]
    · show (listMaxQ (q.map (fun x => x.amount))).getD 0 = 0
      rw [hnil]
      rfl
    · show q.length = 0
      rw [hnil]
      rfl
  · intro hdef
    rcases start_date with _ | s0 <;> rcases end_date with _ | e0
    · exact ⟨rfl, rfl⟩
    · exact ⟨rfl, rfl⟩
    · exact ⟨rfl, rfl⟩
    · rcases hdef with h | h <;> exact Option.noConfusion h

/-! ## Budget vs actual (`get_budget_comparison`, `expenses/utils.py` 303-381) -/

/-- Banker's rounding to an integer, as Python `round` on exact decimals
(ties to the even integer). -/
def roundHalfEven (q : ℚ) : ℤ :=
  let f := ⌊q⌋
  let frac := q - f
  if frac < 1/2 then f
  else if 1/2 < frac then f + 1
  else if f % 2 = 0 then f else f + 1

/-- Python `round(x, 2)`. -/
def round2 (q : ℚ) : ℚ := (roundHalfEven (q * 100) : ℚ) / 100

structure CompEntry where
  category_id : Nat
  category_name : String
  category_color : String
  budget_amount : ℚ
  actual_amount : ℚ
  remaining : ℚ
  percentage : ℚ
  is_over_budget : Bool
deriving DecidableEq, Repr

/-- One loop iteration of `get_budget_comparison`: the entry built for a
category from the (already period/currency-filtered) budgets and the user's
expenses in `[s, e]`. -/
def budgetComparisonEntry (user : Nat) (bs : List Budget) (expenses : List Expense)
    (currency : String) (s e : Date) (c : Category) : CompEntry :=
  let category_budget := bs.find? (fun b => b.categoryId == some c.id)
  let actual_spending := sumAmounts (expenses.filter (fun x =>
    x.userId == user && x.categoryId == some c.id && dleB s x.date && dleB x.date e
      && x.currency == currency))
  let budget_amount :=
    match category_budget with
    | some b => b.amount
    | none => 0
  let percentage :=
    if 0 < budget_amount
    then min 100 (round2 (actual_spending / budget_amount * 100))
    else 0
  ⟨c.id, c.name, c.color, budget_amount, actual_spending,
    max 0 (budget_amount - actual_spending), percentage,
    decide (budget_amount < actual_spending)⟩

/-- The category loop and final sort of `get_budget_comparison`. -/
def budgetComparisonCore (user : Nat) (cats : List Category) (bs : List Budget)
    (expenses : List Expense) (currency : String) (s e : Date) : List CompEntry :=
  let userCats := cats.filter (fun c => c.userId == user)
  (userCats.map (budgetComparisonEntry user bs expenses currency s e)).mergeSort
    (fun a b => b.percentage ≤ a.percentage)

/-- `get_budget_comparison` (`expenses/utils.py` 303-381): date range and
budget filter per period, then the per-category loop sorted by percentage
descending; unrecognized periods yield `[]`. -/
def get_budget_comparison (user : Nat) (cats : List Category)
    (budgets : List Budget) (expenses : List Expense) (period : String)
    (currency : String) (today : Date) : List CompEntry :=
  if period == "current_month" then
    let s := (⟨today.year, today.month, 1⟩ : Date)
    let nm := if today.month == 12 then (⟨today.year + 1, 1, 1⟩ : Date)
              else ⟨today.year, today.month + 1, 1⟩
    let e := predDay nm
    let bs := budgets.filter (fun b => b.userId == user && b.currency == currency
        && (b.period == BudgetPeriod.monthly || b.period == BudgetPeriod.yearly))
    let bs := bs.filter (fun b => b.period == BudgetPeriod.monthly)
    budgetComparisonCore user cats bs expenses currency s e
  else if period == "current_year" then
    let s := (⟨today.year, 1, 1⟩ : Date)
    let e := (⟨today.year, 12, 31⟩ : Date)
    let bs := budgets.filter (fun b => b.userId == user && b.currency == currency
        && (b.period == BudgetPeriod.monthly || b.period == BudgetPeriod.yearly))
    let bs := bs.filter (fun b => b.period == BudgetPeriod.yearly)
    budgetComparisonCore user cats bs expenses currency s e
  else []

/-- C8: each comparison result holds one entry per category of the user,
with `percentage = min(100, round(actual/budget*100, 2))` for a positive
budget and `0` otherwise, `remaining = max(0, budget - actual)`,
`is_over_budget` exactly when actual spending strictly exceeds the budget,
sorted by percentage descending; a budget with no category is never the
budget selected for a category's entry. -/
theorem C8_get_budget_comparison (user : Nat) (cats : List Category)
    (bs : List Budget) (expenses : List Expense) (currency : String)
    (s e : Date) :
    ((budgetComparisonCore user cats bs expenses currency s e).Perm
        ((cats.filter (fun c => c.userId == user)).map
          (budgetComparisonEntry user bs expenses currency s e)))
    ∧ ((budgetComparisonCore user cats bs expenses currency s e).Pairwise
        (fun a b => b.percentage ≤ a.percentage))
    ∧ (∀ c : Category,
        (budgetComparisonEntry user bs expenses currency s e c).category_id = c.id
        ∧ (budgetComparisonEntry user bs expenses currency s e c).actual_amount
            = sumAmounts (expenses.filter (fun x =>
                x.userId == user && x.categoryId == some c.id
                  && dleB s x.date && dleB x.date e && x.currency == currency))
        ∧ (budgetComparisonEntry user bs expenses currency s e c).percentage
            = (if 0 < (budgetComparisonEntry user bs expenses currency s e c).budget_amount
               then min 100 (round2
                  ((budgetComparisonEntry user bs expenses currency s e c).actual_amount
                    / (budgetComparisonEntry user bs expenses currency s e c).budget_amount
                    * 100))
               else 0)
        ∧ (budgetComparisonEntry user bs expenses currency s e c).remaining
            = max 0 ((budgetComparisonEntry user bs expenses currency s e c).budget_amount
                - (budgetComparisonEntry user bs expenses currency s e c).actual_amount)
        ∧ ((budgetComparisonEntry user bs expenses currency s e c).is_over_budget = true
            ↔ (budgetComparisonEntry user bs expenses currency s e c).budget_amount
                < (budgetComparisonEntry user bs expenses currency s e c).actual_amount))
    ∧ (∀ c : Category, ∀ b : Budget,
        bs.find? (fun b => b.categoryId == some c.id) = some b
          → b.categoryId = some c.id)
    ∧ (∀ budgets : List Budget, ∀ today : Date,
        get_budget_comparison user cats budgets expenses "current_month" currency today
          = budgetComparisonCore user cats
              ((budgets.filter (fun b => b.userId == user && b.currency == currency
                  && (b.period == BudgetPeriod.monthly
                      || b.period == BudgetPeriod.yearly))).filter
                (fun b => b.period == BudgetPeriod.monthly))
              expenses currency ⟨today.year, today.month, 1⟩
              (predDay (if today.month == 12 then ⟨today.year + 1, 1, 1⟩
                        else ⟨today.year, today.month + 1, 1⟩))
        ∧ get_budget_comparison user cats budgets expenses "current_year" currency today
          = budgetComparisonCore user cats
              ((budgets.filter (fun b => b.userId == user && b.currency == currency
                  && (b.period == BudgetPeriod.monthly
                      || b.period == BudgetPeriod.yearly))).filter
                (fun b => b.period == BudgetPeriod.yearly))
              expenses currency ⟨today.year, 1, 1⟩ ⟨today.year, 12, 31⟩) := by
  refine ⟨?_, ?_, ?_, ?_, ?_⟩
  · exact List.mergeSort_perm _ _
  · have htrans : ∀ a b c : CompEntry,
        decide (b.percentage ≤ a.percentage) = true →
        decide (c.percentage ≤ b.percentage) = true →
        decide (c.percentage ≤ a.percentage) = true := by
      intro a b c hab hbc
      simp only [decide_eq_true_eq] at *
      exact le_trans hbc hab
    have htotal : ∀ a b : CompEntry,
        (decide (b.percentage ≤ a.percentage)
          || decide (a.percentage ≤ b.percentage)) = true := by
      intro a b
      simp only [Bool.or_eq_true, decide_eq_true_eq]
      exact le_total b.percentage a.percentage
    have hp := List.sorted_mergeSort htrans htotal
      ((cats.filter (fun c => c.userId == user)).map
        (budgetComparisonEntry user bs expenses currency s e))
    refine List.Pairwise.imp ?_ hp
    intro a b hab
    simpa using hab
  · intro c
    refine ⟨rfl, rfl, rfl, rfl, ?_⟩
    exact decide_eq_true_iff
  · intro c b hfind
    have := List.find?_some hfind
    simpa using this
  · intro budgets today
    exact ⟨rfl, rfl⟩

/-! ## Date ranges (`get_date_range`, `expenses/utils.py` 14-65) -/

/-- `Expense.objects.order_by('date').first()`, reduced to its date: the
earliest expense date, over all stored expenses. -/
def oldestExpenseDate : List Expense → Option Date
  | [] => none
  | x :: t =>
    match oldestExpenseDate t with
    | none => some x.date
    | some d => some (if x.date.toOrd ≤ d.toOrd then x.date else d)

/-- `get_date_range` (`expenses/utils.py` 14-65). -/
def get_date_range (period : String) (custom_start custom_end : Option Date)
    (today : Date) (expenses : List Expense) : Date × Date :=
  match custom_start, custom_end with
  | some cs, some ce => (cs, ce)
  | _, _ =>
    if period == "today" then (today, today)
    else if period == "yesterday" then (predDay today, predDay today)
    else if period == "this_week" then (subDays today (weekday today), today)
    else if period == "last_week" then
      let end_of_last_week := subDays today (weekday today + 1)
      (subDays end_of_last_week 6, end_of_last_week)
    else if period == "this_month" then (⟨today.year, today.month, 1⟩, today)
    else if period == "last_month" then
      let last_of_prev := predDay ⟨today.year, today.month, 1⟩
      (⟨last_of_prev.year, last_of_prev.month, 1⟩, last_of_prev)
    else if period == "this_year" then (⟨today.year, 1, 1⟩, today)
    else if period == "last_year" then
      let last_of_prev := predDay ⟨today.year, 1, 1⟩
      (⟨last_of_prev.year, 1, 1⟩, last_of_prev)
    else if period == "all_time" then
      match oldestExpenseDate expenses with
      | some d => (d, today)
      | none => (subDays today (365 * 5), today)
    else (subDays today 30, today)

/-- C10 counterexample: with a single future-dated expense, the recognized
period `'all_time'` returns a range whose start is strictly after its end,
so `get_date_range` does not return `start <= end` for every recognized
named period. -/
theorem C10_get_date_range_counterexample :
    (get_date_range "all_time" none none ⟨2025, 1, 15⟩
        [⟨1, 1, "USD", ⟨2025, 3, 1⟩, none⟩]).2.toOrd
      < (get_date_range "all_time" none none ⟨2025, 1, 15⟩
          [⟨1, 1, "USD", ⟨2025, 3, 1⟩, none⟩]).1.toOrd := by
  decide

set_option maxHeartbeats 8000000 in
/-- C10 (amended): custom dates are returned unchanged for every period;
every recognized named period other than `'all_time'` yields `start <= end`,
with `'last_week'` exactly the Monday-through-Sunday week preceding the
current week's Monday and `'last_month'` the first through last day of the
previous calendar month; `'all_time'` yields `start <= end` whenever there
are no expenses or the oldest expense date is not in the future; and an
unrecognized period yields the 30 days up to today. -/
theorem C10_get_date_range_amended (today : Date) (expenses : List Expense)
    (hv : today.valid) (hord : 1826 ≤ today.toOrd) :
    (∀ p cs ce, get_date_range p (some cs) (some ce) today expenses = (cs, ce))
    ∧ (get_date_range "today" none none today expenses).1.toOrd
        ≤ (get_date_range "today" none none today expenses).2.toOrd
    ∧ (get_date_range "yesterday" none none today expenses).1.toOrd
        ≤ (get_date_range "yesterday" none none today expenses).2.toOrd
    ∧ (get_date_range "this_week" none none today expenses).1.toOrd
        ≤ (get_date_range "this_week" none none today expenses).2.toOrd
    ∧ (get_date_range "this_month" none none today expenses).1.toOrd
        ≤ (get_date_range "this_month" none none today expenses).2.toOrd
    ∧ (get_date_range "this_year" none none today expenses).1.toOrd
        ≤ (get_date_range "this_year" none none today expenses).2.toOrd
    ∧ ((get_date_range "last_week" none none today expenses).2.toOrd
          = (subDays today (weekday today)).toOrd - 1
        ∧ (get_date_range "last_week" none none today expenses).1.toOrd
          = (subDays today (weekday today)).toOrd - 7
        ∧ weekday (get_date_range "last_week" none none today expenses).1 = 0
        ∧ weekday (get_date_range "last_week" none none today expenses).2 = 6
        ∧ (get_date_range "last_week" none none today expenses).1.toOrd
          ≤ (get_date_range "last_week" none none today expenses).2.toOrd)
    ∧ ((2 ≤ today.month →
          get_date_range "last_month" none none today expenses
            = (⟨today.year, today.month - 1, 1⟩,
               ⟨today.year, today.month - 1, daysInMonth today.year (today.month - 1)⟩))
        ∧ (today.month = 1 →
          get_date_range "last_month" none none today expenses
            = (⟨today.year - 1, 12, 1⟩, ⟨today.year - 1, 12, 31⟩))
        ∧ (get_date_range "last_month" none none today expenses).1.toOrd
          ≤ (get_date_range "last_month" none none today expenses).2.toOrd)
    ∧ (get_date_range "last_year" none none today expenses).1.toOrd
        ≤ (get_date_range "last_year" none none today expenses).2.toOrd
    ∧ ((oldestExpenseDate expenses = none →
          get_date_range "all_time" none none today expenses
              = (subDays today (365 * 5), today)
            ∧ (get_date_range "all_time" none none today expenses).1.toOrd
              ≤ (get_date_range "all_time" none none today expenses).2.toOrd)
        ∧ ∀ d, oldestExpenseDate expenses = some d → d.toOrd ≤ today.toOrd →
            get_date_range "all_time" none none today expenses = (d, today)
              ∧ (get_date_range "all_time" none none today expenses).1.toOrd
                ≤ (get_date_range "all_time" none none today expenses).2.toOrd)
    ∧ ∀ p, p ∉ ["today", "yesterday", "this_week", "last_week", "this_month",
          "last_month", "this_year", "last_year", "all_time"] →
        get_date_range p none none today expenses = (subDays today 30, today)
          ∧ (get_date_range p none none today expenses).1.toOrd
            ≤ (get_date_range p none none today expenses).2.toOrd := by
  have hw : weekday today ≤ 6 := by
    unfold weekday
    omega
  have hT1 := toOrd_subDays today hv (weekday today) (by omega)
  have hT2 := toOrd_subDays today hv (weekday today + 1) (by omega)
  have hT3 := toOrd_subDays (subDays today (weekday today + 1)) hT2.2 6
    (by rw [hT2.1]; omega)
  have hyb := toOrd_year_bounds today hv
  obtain ⟨hy1, hm1, hm2, hd1, hd2⟩ := hv
  refine ⟨?_, ?_, ?_, ?_, ?_, ?_, ?_, ?_, ?_, ?_, ?_⟩
  · intro p cs ce
    rfl
  · exact le_refl _
  · exact le_refl _
  · have hres : get_date_range "this_week" none none today expenses
        = (subDays today (weekday today), today) := rfl
    rw [hres]
    show (subDays today (weekday today)).toOrd ≤ today.toOrd
    rw [hT1.1]
    omega
  · have hres : get_date_range "this_month" none none today expenses
        = (⟨today.year, today.month, 1⟩, today) := rfl
    rw [hres]
    exact toOrd_firstOfMonth_le today ⟨hy1, hm1, hm2, hd1, hd2⟩
  · have hres : get_date_range "this_year" none none today expenses
        = (⟨today.year, 1, 1⟩, today) := rfl
    rw [hres]
    show (Date.toOrd ⟨today.year, 1, 1⟩) ≤ today.toOrd
    rw [toOrd_jan1]
    omega
  · have hres : get_date_range "last_week" none none today expenses
        = (subDays (subDays today (weekday today + 1)) 6,
           subDays today (weekday today + 1)) := rfl
    rw [hres]
    dsimp only
    have hwd : weekday today = (today.toOrd + 6) % 7 := rfl
    refine ⟨?_, ?_, ?_, ?_, ?_⟩
    · rw [hT2.1, hT1.1]
      omega
    · rw [hT3.1, hT2.1, hT1.1]
      omega
    · rw [show weekday (subDays (subDays today (weekday today + 1)) 6)
          = ((subDays (subDays today (weekday today + 1)) 6).toOrd + 6) % 7 from rfl]
      rw [hT3.1, hT2.1, hwd]
      omega
    · rw [show weekday (subDays today (weekday today + 1))
          = ((subDays today (weekday today + 1)).toOrd + 6) % 7 from rfl]
      rw [hT2.1, hwd]
      omega
    · rw [hT3.1]
      omega
  · have hres : get_date_range "last_month" none none today expenses
        = (⟨(predDay ⟨today.year, today.month, 1⟩).year,
            (predDay ⟨today.year, today.month, 1⟩).month, 1⟩,
           predDay ⟨today.year, today.month, 1⟩) := rfl
    by_cases hm : 2 ≤ today.month
    · have hpred : predDay ⟨today.year, today.month, 1⟩
          = ⟨today.year, today.month - 1, daysInMonth today.year (today.month - 1)⟩ := by
        unfold predDay
        rw [if_neg (by norm_num : ¬ (1 : Nat) < 1),
          if_pos (show 1 < today.month by omega)]
      refine ⟨fun _ => ?_, fun hc => absurd hc (by omega), ?_⟩
      · rw [hres, hpred]
      · rw [hres, hpred]
        show (Date.toOrd ⟨today.year, today.month - 1, 1⟩)
          ≤ Date.toOrd ⟨today.year, today.month - 1,
              daysInMonth today.year (today.month - 1)⟩
        have := daysInMonth_pos today.year (today.month - 1)
        dsimp only [Date.toOrd]
        omega
    · have hm1' : today.month = 1 := by omega
      have hpred : predDay ⟨today.year, today.month, 1⟩ = ⟨today.year - 1, 12, 31⟩ := by
        unfold predDay
        rw [if_neg (by norm_num : ¬ (1 : Nat) < 1),
          if_neg (show ¬ 1 < today.month by omega)]
      refine ⟨fun hc => absurd hc (by omega), fun _ => ?_, ?_⟩
      · rw [hres, hpred]
      · rw [hres, hpred]
        show (Date.toOrd ⟨today.year - 1, 12, 1⟩) ≤ Date.toOrd ⟨today.year - 1, 12, 31⟩
        dsimp only [Date.toOrd]
        omega
  · have hres : get_date_range "last_year" none none today expenses
        = (⟨(predDay ⟨today.year, 1, 1⟩).year, 1, 1⟩, predDay ⟨today.year, 1, 1⟩) := rfl
    have hpred : predDay ⟨today.year, 1, 1⟩ = ⟨today.year - 1, 12, 31⟩ := by
      unfold predDay
      rw [if_neg (by norm_num : ¬ (1 : Nat) < 1), if_neg (by norm_num : ¬ (1 : Nat) < 1)]
    rw [hres, hpred]
    show (Date.toOrd ⟨today.year - 1, 1, 1⟩) ≤ Date.toOrd ⟨today.year - 1, 12, 31⟩
    have := daysBeforeMonth_mono (today.year - 1) 1 12 (by norm_num) (by norm_num)
    dsimp only [Date.toOrd]
    omega
  · have hsub5 := toOrd_subDays today ⟨hy1, hm1, hm2, hd1, hd2⟩ (365 * 5) (by omega)
    constructor
    · intro h
      have hres : get_date_range "all_time" none none today expenses
          = (subDays today (365 * 5), today) := by
        show (match oldestExpenseDate expenses with
          | some d => (d, today)
          | none => (subDays today (365 * 5), today)) = _
        rw [h]
      refine ⟨hres, ?_⟩
      rw [hres]
      dsimp only
      rw [hsub5.1]
      omega
    · intro d h hd
      have hres : get_date_range "all_time" none none today expenses = (d, today) := by
        show (match oldestExpenseDate expenses with
          | some d => (d, today)
          | none => (subDays today (365 * 5), today)) = _
        rw [h]
      refine ⟨hres, ?_⟩
      rw [hres]
      exact hd
  · intro p hp
    simp only [List.mem_cons, List.not_mem_nil, or_false] at hp
    push_neg at hp
    obtain ⟨h1, h2, h3, h4, h5, h6, h7, h8, h9⟩ := hp
    have hres : get_date_range p none none today expenses
        = (subDays today 30, today) := by
      unfold get_date_range
      dsimp only
      rw [if_neg (by simp [h1]), if_neg (by simp [h2]), if_neg (by simp [h3]),
        if_neg (by simp [h4]), if_neg (by simp [h5]), if_neg (by simp [h6]),
        if_neg (by simp [h7]), if_neg (by simp [h8]), if_neg (by simp [h9])]
    have hsub30 := toOrd_subDays today ⟨hy1, hm1, hm2, hd1, hd2⟩ 30 (by omega)
    refine ⟨hres, ?_⟩
    rw [hres]
    dsimp only
    rw [hsub30.1]
    omega

theorem C10_get_date_range_amended_witness :
    (⟨2025, 10, 12⟩ : Date).valid ∧ 1826 ≤ (⟨2025, 10, 12⟩ : Date).toOrd
      ∧ (∀ p cs ce,
          get_date_range p (some cs) (some ce) ⟨2025, 10, 12⟩ [] = (cs, ce)) :=
  ⟨by decide, by decide,
    (C10_get_date_range_amended ⟨2025, 10, 12⟩ [] (by decide) (by decide)).1⟩
